import Mathlib

/-!
Shallow embedding of the UMLEditor structural model: the grammar validator
(src/src/utils/utils.hpp), the checking helpers (model/checking.hpp), the
model entities (field, parameter, method, method signature, class,
relationship, diagram from src/src/model) and the command/timeline engine
(src/src/commands/base_commands.cpp, src/src/main.cpp,
src/src/commands/completers.hpp).

Conventions of the embedding: C++ `std::string` is Lean `String`; the
index-based parser works on `List Char` (a `String`'s character data);
`std::expected<T, std::string>` is `Except String T`; an in-place mutator
returns the result paired with the new value of the mutated object, so that
"unchanged on failure" is a provable statement rather than an artifact of
the encoding.  `std::ranges::sort` (an unspecified comparison sort over a
strict total order) is embedded as insertion sort over the corresponding
non-strict order; every collection the source sorts carries a strict order
on the elements that may legally coexist, so the sorted result is the same
list for any correct sorting algorithm.
-/

/-- InRange<Lo, Hi>(c) from src/src/utils/utils.hpp: whether a character is
within an inclusive range. -/
def InRange (lo hi c : Char) : Bool := decide (lo ≤ c) && decide (c ≤ hi)

/-- Alpha(c): alphabetic or underscore. -/
def Alpha (c : Char) : Bool := InRange 'a' 'z' c || InRange 'A' 'Z' c || c == '_'

/-- Digit(c): a decimal digit. -/
def Digit (c : Char) : Bool := InRange '0' '9' c

/-- AlNum(c): alphabetic, underscore or digit. -/
def AlNum (c : Char) : Bool := Alpha c || Digit c

/-- The character predicate of the maximal star runs consumed by ValidType. -/
def isStar (c : Char) : Bool := c == '*'

/-- The loop body of `consumeWhile`, structurally recursive on the exact
number of characters left (`t.length - start`), so that it reduces inside
the kernel. -/
def consumeWhileAux (p : Char → Bool) (t : List Char) : Nat → Nat → Nat
  | 0, start => start
  | k + 1, start =>
    match t[start]? with
    | some c => if p c then consumeWhileAux p t k (start + 1) else start
    | none => start

/-- The `while (start < t.size() and p(t[start])) ++start;` loops of the
grammar validator: the first index at or after `start` whose character fails
`p`, or the end of the text. -/
def consumeWhile (p : Char → Bool) (t : List Char) (start : Nat) : Nat :=
  consumeWhileAux p t (t.length - start) start

/-- ValidIdentifier(t, start) from src/src/utils/utils.hpp: fails when `start`
is at the end or the character there is not alphabetic/underscore; otherwise
returns the index just past the maximal alphanumeric/underscore run. -/
def ValidIdentifier (t : List Char) (start : Nat) : Except String Nat :=
  if start = t.length then
    Except.error "expected identifier but was empty"
  else
    match t[start]? with
    | none => Except.error "expected identifier but was empty"
    | some c =>
      if Alpha c then Except.ok (consumeWhile AlNum t (start + 1))
      else
        Except.error
          ("expected identifier saw non-alphabetic '" ++ toString c ++ "' at index " ++ toString start)

mutual

/-- ValidType(t, start) from src/src/utils/utils.hpp, with an explicit fuel
parameter for termination (the fuel only bounds the recursion depth; the
wrapper `ValidType` supplies fuel that is provably sufficient, see
`validTypeF_fuel`).  Parses an identifier; at the end of text returns; on
`*` consumes a maximal star run; on an opening bracket parses a
comma-separated type list up to the matching closer (the source's shared
static bracket stack only ever exposes its top to the frame that pushed it,
so it embeds as the `closer` argument). -/
def ValidTypeF : Nat → List Char → Nat → Except String Nat
  | 0, _, _ => Except.error "out of fuel"
  | fuel + 1, t, start =>
    match ValidIdentifier t start with
    | Except.error e => Except.error e
    | Except.ok id =>
      if id = t.length then Except.ok id
      else
        match t[id]? with
        | some '[' => bracketListF fuel t ']' id
        | some '(' => bracketListF fuel t ')' id
        | some '<' => bracketListF fuel t '>' id
        | some '*' => Except.ok (consumeWhile isStar t (id + 1))
        | _ => Except.ok id

/-- The bracket branch of ValidType: after pushing the matching closer the
source does `if (++start == t.size()) ... error` and then enters the list
loop with `first = true`. -/
def bracketListF : Nat → List Char → Char → Nat → Except String Nat
  | 0, _, _, _ => Except.error "out of fuel"
  | fuel + 1, t, closer, start =>
    if start + 1 = t.length then Except.error "Expected more after type specifier"
    else typeListF fuel t closer (start + 1) true

/-- The `while (t[start] != stack.back())` loop of ValidType: each iteration
optionally consumes a separating comma (never before the first element),
parses one recursive type, and checks the text has not ended; on seeing the
closer it consumes it plus a maximal star run. -/
def typeListF : Nat → List Char → Char → Nat → Bool → Except String Nat
  | 0, _, _, _, _ => Except.error "out of fuel"
  | fuel + 1, t, closer, start, first =>
    match t[start]? with
    | none => Except.error "Unexpected end to type list"
    | some ch =>
      if ch = closer then Except.ok (consumeWhile isStar t (start + 1))
      else
        match (if first then Except.ok start
               else if ch = ',' then Except.ok (start + 1)
               else Except.error
                 ("Expected ',' but got '" ++ toString ch ++ "' at index " ++ toString start)) with
        | Except.error e => Except.error e
        | Except.ok s1 =>
          match ValidTypeF fuel t s1 with
          | Except.error e => Except.error e
          | Except.ok e =>
            if e = t.length then Except.error "Unexpected end to type list"
            else typeListF fuel t closer e false

end

/-- ValidType(t, start): the fueled parser at a provably sufficient fuel. -/
def ValidType (t : List Char) (start : Nat) : Except String Nat :=
  ValidTypeF (2 * t.length + 2) t start

/-- Check<Fn>(entity, tag) from src/src/model/checking.hpp: runs the check
function at offset 0, discards the end index, and wraps the error message. -/
def CheckWith (fn : List Char → Nat → Except String Nat) (entity tag : String) :
    Except String Unit :=
  match fn entity.data 0 with
  | Except.ok _ => Except.ok ()
  | Except.error msg =>
    Except.error ("Invalid " ++ tag ++ ": '" ++ entity ++ "'. Reason: " ++ msg)

/-- Check<ValidIdentifier>. -/
def CheckVI (entity tag : String) : Except String Unit := CheckWith ValidIdentifier entity tag

/-- Check<ValidType>. -/
def CheckVT (entity tag : String) : Except String Unit := CheckWith ValidType entity tag

/-- CheckAll<Fn>(range, tag) from src/src/model/checking.hpp: first failing
element's wrapped error, if any. -/
def CheckAllWith (fn : List Char → Nat → Except String Nat) (entities : List String)
    (tag : String) : Except String Unit :=
  match entities with
  | [] => Except.ok ()
  | x :: xs =>
    match CheckWith fn x tag with
    | Except.error e => Except.error e
    | Except.ok _ => CheckAllWith fn xs tag

/-- Whether a list has two equal (by `beq`) adjacent elements: what
`std::ranges::unique` finds a nonempty removable range for. -/
def hasAdjacentDup (beq : α → α → Bool) : List α → Bool
  | a :: b :: rest => beq a b || hasAdjacentDup beq (b :: rest)
  | _ => false

/-- `std::ranges::sort` over the element order whose strict form is `lt`:
sorts by the non-strict `fun a b => !(lt b a)`. -/
def sortBy (le : α → α → Bool) (l : List α) : List α :=
  List.insertionSort (fun a b => le a b = true) l

/-- Unique(c, tag) from src/src/model/checking.hpp: sorts a copy and fails
iff two adjacent elements of the sorted copy compare equal.  (Named
`UniqueCheck` here only because Mathlib already declares `Unique`.) -/
def UniqueCheck (le beq : α → α → Bool) (c : List α) (tag : String) : Except String Unit :=
  if hasAdjacentDup beq (sortBy le c) then Except.error ("Duplicate " ++ tag ++ " exist")
  else Except.ok ()

/-- Lexicographic order on character lists: the shallow embedding of
std::string's operator< (which compares character by character).  Written as
an explicit Bool-valued function so that it reduces inside the kernel. -/
def listLt : List Char → List Char → Bool
  | [], [] => false
  | [], _ :: _ => true
  | _ :: _, [] => false
  | a :: as, b :: bs =>
    if a < b then true else if b < a then false else listLt as bs

/-- std::string's operator< on the embedded strings. -/
def strLt (a b : String) : Bool := listLt a.data b.data

/-- The (source, destination) key order of Relationship::operator<=>, at the
level of bare string pairs. -/
def pairLt (p q : String × String) : Bool :=
  strLt p.1 q.1 || (p.1 == q.1 && strLt p.2 q.2)

namespace model

/-- RelationshipType from src/src/model/relationship_type.hpp. -/
inductive RelationshipType where
  | Aggregation
  | Composition
  | Inheritance
  | Realization
deriving DecidableEq

/-- Point from src/src/model/class.hpp. -/
structure Point where
  x : Int
  y : Int
deriving DecidableEq

/-- Field from src/src/model/field.hpp. -/
structure Field where
  name : String
  type : String
deriving DecidableEq

/-- Parameter from src/src/model/parameter.hpp. -/
structure Parameter where
  name : String
  type : String
deriving DecidableEq

/-- Method from src/src/model/method.hpp. -/
structure Method where
  name : String
  return_type : String
  parameters : List Parameter
deriving DecidableEq

/-- MethodSignature from src/src/model/method_signature.hpp. -/
structure MethodSignature where
  name : String
  parameter_types : List String
deriving DecidableEq

/-- Class from src/src/model/class.hpp. -/
structure Class where
  name : String
  fields : List Field
  methods : List Method
  position : Point
deriving DecidableEq

/-- Relationship from src/src/model/relationship.hpp. -/
structure Relationship where
  source : String
  destination : String
  type : RelationshipType
deriving DecidableEq

/-- Diagram from src/src/model/diagram.hpp. -/
structure Diagram where
  classes : List Class
  relationships : List Relationship
deriving DecidableEq

/-- std::string's operator<=> (lexicographic three-way comparison). -/
def cmpStr (a b : String) : Ordering :=
  if strLt a b then Ordering.lt else if strLt b a then Ordering.gt else Ordering.eq

/-- String operator< as a comparator (for `Unique` over plain names). -/
def strLe (a b : String) : Bool := !(strLt b a)

/-- String operator== as a comparator. -/
def strBeq (a b : String) : Bool := a == b

/-- Field::operator<=> compares names only; this is `!(b < a)`. -/
def fieldLe (a b : Field) : Bool := !(strLt b.name a.name)

/-- Field::operator== compares names only. -/
def fieldBeq (a b : Field) : Bool := a.name == b.name

/-- Class::operator<=> compares names only; this is `!(b < a)`. -/
def classLe (a b : Class) : Bool := !(strLt b.name a.name)

/-- Class::operator== compares names only. -/
def classBeq (a b : Class) : Bool := a.name == b.name

/-- Relationship::operator<=>: source first, then destination. -/
def relLt (a b : Relationship) : Bool :=
  strLt a.source b.source || (a.source == b.source && strLt a.destination b.destination)

/-- `!(b < a)` for relationships. -/
def relLe (a b : Relationship) : Bool := !(relLt b a)

/-- Relationship::operator==: the (source, destination) pair only — the
type is ignored. -/
def relBeq (a b : Relationship) : Bool := a.source == b.source && a.destination == b.destination

/-- The zip loop of Method::operator<=>: first non-equal pairwise comparison
of parameter types, else equal. -/
def cmpTypesZip : List Parameter → List Parameter → Ordering
  | p1 :: r1, p2 :: r2 =>
    match cmpStr p1.type p2.type with
    | Ordering.eq => cmpTypesZip r1 r2
    | o => o
  | _, _ => Ordering.eq

/-- Method::operator<=> from src/src/model/method.cpp: name, then parameter
count, then pairwise parameter types, then return type. -/
def Method.cmp (a b : Method) : Ordering :=
  match cmpStr a.name b.name with
  | Ordering.eq =>
    match compare a.parameters.length b.parameters.length with
    | Ordering.eq =>
      match cmpTypesZip a.parameters b.parameters with
      | Ordering.eq => cmpStr a.return_type b.return_type
      | o => o
    | o => o
  | o => o

/-- `!(b < a)` for methods. -/
def methodLe (a b : Method) : Bool := !(Method.cmp b a == Ordering.lt)

/-- The zip loop of MethodSignature::operator<=>: first non-equal pairwise
comparison, else equal. -/
def cmpStrListZip : List String → List String → Ordering
  | x :: xs, y :: ys =>
    match cmpStr x y with
    | Ordering.eq => cmpStrListZip xs ys
    | o => o
  | _, _ => Ordering.eq

/-- MethodSignature::operator<=> from src/src/model/method_signature.cpp:
name, then pairwise parameter types, then parameter count. -/
def MethodSignature.cmp (a b : MethodSignature) : Ordering :=
  match cmpStr a.name b.name with
  | Ordering.eq =>
    match cmpStrListZip a.parameter_types b.parameter_types with
    | Ordering.eq => compare a.parameter_types.length b.parameter_types.length
    | o => o
  | o => o

/-- Method::operator==(Method): name plus pairwise-equal parameter types
(return type and parameter names ignored). -/
def Method.sigBeq (a b : Method) : Bool :=
  a.name == b.name && (a.parameters.map Parameter.type) == (b.parameters.map Parameter.type)

/-- Method::operator==(MethodSignature). -/
def Method.matchesSig (m : Method) (sig : MethodSignature) : Bool :=
  m.name == sig.name && (m.parameters.map Parameter.type) == sig.parameter_types

/-- Field::From from the field translation unit: name checked as an
identifier, type as a type expression. -/
def Field.From (name type : String) : Except String Field :=
  match CheckVI name "field name" with
  | Except.error e => Except.error e
  | Except.ok _ =>
    match CheckVT type "field type" with
    | Except.error e => Except.error e
    | Except.ok _ => Except.ok { name := name, type := type }

/-- Field::Rename: the source validates the new NAME with Check<ValidType>
under the tag "field type" (not Check<ValidIdentifier> as the constructor
does for the name). -/
def Field.Rename (f : Field) (name : String) : Except String Unit × Field :=
  match CheckVT name "field type" with
  | Except.ok _ => (Except.ok (), { f with name := name })
  | Except.error e => (Except.error e, f)

/-- Field::ChangeType. -/
def Field.ChangeType (f : Field) (new_type : String) : Except String Unit × Field :=
  match CheckVT new_type "field type" with
  | Except.ok _ => (Except.ok (), { f with type := new_type })
  | Except.error e => (Except.error e, f)

/-- The static Check(std::vector<Parameter>) helper of the method
translation unit: unique names, then all names identifiers, then all types
type expressions. -/
def methodParamsCheck (parameters : List Parameter) : Except String Unit :=
  match UniqueCheck strLe strBeq (parameters.map Parameter.name) "parameter names" with
  | Except.error e => Except.error e
  | Except.ok _ =>
    match CheckAllWith ValidIdentifier (parameters.map Parameter.name) "parameter name" with
    | Except.error e => Except.error e
    | Except.ok _ => CheckAllWith ValidType (parameters.map Parameter.type) "parameter type"

/-- The static Check(std::vector<Parameter>) helper of src/src/model/class.cpp
(same checks as `methodParamsCheck`, in a different order). -/
def classParamsCheck (parameters : List Parameter) : Except String Unit :=
  match CheckAllWith ValidIdentifier (parameters.map Parameter.name) "parameter name" with
  | Except.error e => Except.error e
  | Except.ok _ =>
    match CheckAllWith ValidType (parameters.map Parameter.type) "parameter type" with
    | Except.error e => Except.error e
    | Except.ok _ => UniqueCheck strLe strBeq (parameters.map Parameter.name) "parameter names"

/-- The static Check(Method) helper of src/src/model/class.cpp. -/
def classMethodCheck (m : Method) : Except String Unit :=
  match CheckVI m.name "method name" with
  | Except.error e => Except.error e
  | Except.ok _ =>
    match classParamsCheck m.parameters with
    | Except.error e => Except.error e
    | Except.ok _ =>
      match CheckVT m.return_type "return type" with
      | Except.error e => Except.error e
      | Except.ok _ => UniqueCheck strLe strBeq (m.parameters.map Parameter.name) "parameter names"

/-- Method::From. -/
def Method.From (name return_type : String) (parameters : List Parameter) :
    Except String Method :=
  match CheckVI name "method name" with
  | Except.error e => Except.error e
  | Except.ok _ =>
    match CheckVT return_type "method return type" with
    | Except.error e => Except.error e
    | Except.ok _ =>
      match methodParamsCheck parameters with
      | Except.error e => Except.error e
      | Except.ok _ =>
        Except.ok { name := name, return_type := return_type, parameters := parameters }

/-- Class::From from src/src/model/class.cpp: the class name is validated as
a TYPE expression (Check<ValidType>), not as a bare identifier. -/
def Class.From (name : String) : Except String Class :=
  match CheckVT name "class name" with
  | Except.error e => Except.error e
  | Except.ok _ =>
    Except.ok { name := name, fields := [], methods := [], position := { x := 0, y := 0 } }

/-- Class::Rename. -/
def Class.Rename (c : Class) (name : String) : Except String Unit × Class :=
  match CheckVT name "class name" with
  | Except.ok _ => (Except.ok (), { c with name := name })
  | Except.error e => (Except.error e, c)

/-- Class::GetField: validates the name as an identifier, then linear search;
the iterator result is embedded as the index of the first match. -/
def Class.GetField (c : Class) (field_name : String) : Except String Nat :=
  match CheckVI field_name "field name" with
  | Except.error e => Except.error e
  | Except.ok _ =>
    match c.fields.findIdx? (fun f => f.name == field_name) with
    | some i => Except.ok i
    | none => Except.error ("field '" ++ field_name ++ "' does not exist")

/-- Class::AddField: push_back then sort. -/
def Class.AddField (c : Class) (field_name field_type : String) :
    Except String Unit × Class :=
  match c.GetField field_name with
  | Except.error _ =>
    match Field.From field_name field_type with
    | Except.ok f => (Except.ok (), { c with fields := sortBy fieldLe (c.fields ++ [f]) })
    | Except.error e => (Except.error e, c)
  | Except.ok _ => (Except.error "the new field already exists", c)

/-- Class::RenameField: look up the old field, reject when the new name is
already a field, delegate to Field::Rename, then sort.  (The `none` branch
of the indexing is unreachable: the index comes from GetField.) -/
def Class.RenameField (c : Class) (field_name new_name : String) :
    Except String Unit × Class :=
  match c.GetField field_name with
  | Except.error e => (Except.error e, c)
  | Except.ok i =>
    match c.GetField new_name with
    | Except.ok _ => (Except.error "the new field name is already in use", c)
    | Except.error _ =>
      match c.fields[i]? with
      | some f =>
        match f.Rename new_name with
        | (Except.ok _, f2) =>
          (Except.ok (), { c with fields := sortBy fieldLe (c.fields.set i f2) })
        | (Except.error e, _) => (Except.error e, c)
      | none => (Except.error "the new field name is already in use", c)

/-- Class::GetMethod(Method const&). -/
def Class.GetMethod (c : Class) (method : Method) : Except String Nat :=
  match classMethodCheck method with
  | Except.error e => Except.error e
  | Except.ok _ =>
    match c.methods.findIdx? (fun m => Method.sigBeq m method) with
    | some i => Except.ok i
    | none => Except.error "method does not exist"

/-- Class::AddMethod: validating construction, duplicate-signature check,
push_back then sort (by Method::operator<=>). -/
def Class.AddMethod (c : Class) (name return_type : String) (parameters : List Parameter) :
    Except String Unit × Class :=
  match Method.From name return_type parameters with
  | Except.error e => (Except.error e, c)
  | Except.ok m =>
    match c.GetMethod m with
    | Except.error _ => (Except.ok (), { c with methods := sortBy methodLe (c.methods ++ [m]) })
    | Except.ok _ => (Except.error "a method with the signature already exists", c)

/-- Relationship::From: both endpoints validated as class names via
Check<ValidType>. -/
def Relationship.From (source destination : String) (type : RelationshipType) :
    Except String Relationship :=
  match CheckVT source "class name" with
  | Except.error e => Except.error e
  | Except.ok _ =>
    match CheckVT destination "class name" with
    | Except.error e => Except.error e
    | Except.ok _ => Except.ok { source := source, destination := destination, type := type }

/-- Relationship::ChangeSource. -/
def Relationship.ChangeSource (r : Relationship) (new_source : String) :
    Except String Unit × Relationship :=
  match CheckVT new_source "class name" with
  | Except.ok _ => (Except.ok (), { r with source := new_source })
  | Except.error e => (Except.error e, r)

/-- Relationship::ChangeDestination. -/
def Relationship.ChangeDestination (r : Relationship) (new_destination : String) :
    Except String Unit × Relationship :=
  match CheckVT new_destination "class name" with
  | Except.ok _ => (Except.ok (), { r with destination := new_destination })
  | Except.error e => (Except.error e, r)

/-- Diagram::GetClass from src/src/model/diagram.cpp: the name is validated
as a TYPE expression, then linear search by name; the iterator result is
the index of the first match. -/
def Diagram.GetClass (d : Diagram) (name : String) : Except String Nat :=
  match CheckVT name "class name" with
  | Except.error e => Except.error e
  | Except.ok _ =>
    match d.classes.findIdx? (fun c => c.name == name) with
    | some i => Except.ok i
    | none => Except.error ("class '" ++ name ++ "' does not exist")

/-- Diagram::GetRelationship: both names validated as type expressions, then
linear search by the (source, destination) pair. -/
def Diagram.GetRelationship (d : Diagram) (src dst : String) : Except String Nat :=
  match CheckVT src "class name" with
  | Except.error e => Except.error e
  | Except.ok _ =>
    match CheckVT dst "class name" with
    | Except.error e => Except.error e
    | Except.ok _ =>
      match d.relationships.findIdx? (fun r => r.source == src && r.destination == dst) with
      | some i => Except.ok i
      | none =>
        Except.error ("relationship between '" ++ src ++ "' and '" ++ dst ++ "' does not exist")

/-- Diagram::AddClass: on success the new class is pushed at the back; there
is no re-sort here (unlike AddRelationship and RenameClass). -/
def Diagram.AddClass (d : Diagram) (name : String) : Except String Unit × Diagram :=
  match d.GetClass name with
  | Except.error _ =>
    match Class.From name with
    | Except.ok c => (Except.ok (), { d with classes := d.classes ++ [c] })
    | Except.error e => (Except.error e, d)
  | Except.ok _ =>
    (Except.error ("Class '" ++ name ++ "' cannot be added because it already exists"), d)

/-- Diagram::DeleteClass: erase every relationship whose source or
destination equals the deleted name, then the class itself. -/
def Diagram.DeleteClass (d : Diagram) (name : String) : Except String Unit × Diagram :=
  match d.GetClass name with
  | Except.error e => (Except.error e, d)
  | Except.ok i =>
    (Except.ok (),
      { d with
        relationships :=
          d.relationships.filter (fun r => !(r.source == name || r.destination == name)),
        classes := d.classes.eraseIdx i })

/-- Diagram::RenameClass: rename the class, sort the classes, then propagate
the new name into relationships via ChangeSource/ChangeDestination (whose
results the source discards with std::ignore). -/
def Diagram.RenameClass (d : Diagram) (old_name new_name : String) :
    Except String Unit × Diagram :=
  match d.GetClass old_name with
  | Except.error e => (Except.error e, d)
  | Except.ok i =>
    match d.GetClass new_name with
    | Except.ok _ => (Except.error "the new class already exists", d)
    | Except.error _ =>
      match d.classes[i]? with
      | some c =>
        match c.Rename new_name with
        | (Except.ok _, c2) =>
          (Except.ok (),
            { d with
              classes := sortBy classLe (d.classes.set i c2),
              relationships := d.relationships.map (fun r =>
                let r1 := if r.source == old_name then (r.ChangeSource new_name).2 else r
                if r1.destination == old_name then (r1.ChangeDestination new_name).2 else r1) })
        | (Except.error e, _) => (Except.error e, d)
      | none => (Except.error "the new class already exists", d)

/-- Diagram::AddRelationship: both endpoints must exist, the ordered pair
must be new; push_back then sort. -/
def Diagram.AddRelationship (d : Diagram) (source destination : String)
    (type : RelationshipType) : Except String Unit × Diagram :=
  match d.GetClass source with
  | Except.error e => (Except.error e, d)
  | Except.ok _ =>
    match d.GetClass destination with
    | Except.error e => (Except.error e, d)
    | Except.ok _ =>
      match d.GetRelationship source destination with
      | Except.error _ =>
        match Relationship.From source destination type with
        | Except.ok r =>
          (Except.ok (), { d with relationships := sortBy relLe (d.relationships ++ [r]) })
        | Except.error e => (Except.error e, d)
      | Except.ok _ => (Except.error "Cannot add relationship because it already exists", d)

/-- Diagram::ChangeRelationshipSource: reject when the resulting pair would
collide with an existing relationship (the relationship's type plays no
part in that identity), require the new endpoint to exist, then mutate and
sort. -/
def Diagram.ChangeRelationshipSource (d : Diagram) (source destination new_source : String) :
    Except String Unit × Diagram :=
  match d.GetRelationship source destination with
  | Except.error e => (Except.error e, d)
  | Except.ok i =>
    match d.GetRelationship new_source destination with
    | Except.ok _ =>
      (Except.error
        ("a relationship between " ++ new_source ++ " and " ++ destination ++ " already exists"), d)
    | Except.error _ =>
      match d.GetClass new_source with
      | Except.error e => (Except.error e, d)
      | Except.ok _ =>
        match d.relationships[i]? with
        | some r =>
          match r.ChangeSource new_source with
          | (Except.ok _, r2) =>
            (Except.ok (), { d with relationships := sortBy relLe (d.relationships.set i r2) })
          | (Except.error e, _) => (Except.error e, d)
        | none => (Except.error "relationship does not exist", d)

/-- Diagram::ChangeRelationshipDestination: mirror image of
ChangeRelationshipSource. -/
def Diagram.ChangeRelationshipDestination
    (d : Diagram) (source destination new_destination : String) :
    Except String Unit × Diagram :=
  match d.GetRelationship source destination with
  | Except.error e => (Except.error e, d)
  | Except.ok i =>
    match d.GetRelationship source new_destination with
    | Except.ok _ =>
      (Except.error
        ("a relationship between " ++ source ++ " and " ++ new_destination ++ " already exists"), d)
    | Except.error _ =>
      match d.GetClass new_destination with
      | Except.error e => (Except.error e, d)
      | Except.ok _ =>
        match d.relationships[i]? with
        | some r =>
          match r.ChangeDestination new_destination with
          | (Except.ok _, r2) =>
            (Except.ok (), { d with relationships := sortBy relLe (d.relationships.set i r2) })
          | (Except.error e, _) => (Except.error e, d)
        | none => (Except.error "relationship does not exist", d)

/-- std::ranges::includes as actually implemented (the standard merge scan):
walks the haystack once, advancing past a needle only on an exact match,
failing as soon as the current needle is below the current haystack element
or the haystack runs out. -/
def includesScan : List String → List String → Bool
  | _, [] => true
  | [], _ :: _ => false
  | h :: hs, n :: ns =>
    if strLt n h then false
    else includesScan hs (if strLt h n then n :: ns else ns)

/-- The tail of `dedupAdjacent`: skip elements equal to the last kept one. -/
def dedupRun (prev : String) : List String → List String
  | [] => []
  | x :: xs => if x == prev then dedupRun prev xs else x :: dedupRun x xs

/-- std::ranges::unique followed by erase, applied after a sort: drop
consecutive duplicates keeping the first of each run. -/
def dedupAdjacent : List String → List String
  | [] => []
  | a :: rest => a :: dedupRun a rest

/-- The invariant checks of from_json(json, Diagram&) in
src/src/model/diagram.cpp: unique classes, unique relationships, and every
relationship endpoint (collected from sources and destinations, sorted and
deduplicated) included among the class names. -/
def diagramChecks (cs : List Class) (rs : List Relationship) : Except String Unit :=
  match UniqueCheck classLe classBeq cs "class" with
  | Except.error e => Except.error e
  | Except.ok _ =>
    match UniqueCheck relLe relBeq rs "relationship" with
    | Except.error e => Except.error e
    | Except.ok _ =>
      let rel_classes :=
        dedupAdjacent
          (sortBy strLe ((rs.map Relationship.source) ++ (rs.map Relationship.destination)))
      if includesScan (cs.map Class.name) rel_classes then Except.ok ()
      else Except.error "Relationship(s) contain nonexistent class(es)"

/-- Diagram::Load after the file has been read, parsed as JSON and both
top-level arrays deserialized elementwise: from_json first assigns the
parsed classes and relationships into the diagram (nlohmann's get_to), and
only then runs the invariant checks, throwing on failure; Load catches the
throw and wraps the message as "Error: ...".  The file/JSON layer itself
(missing file, malformed JSON, a failing element-level from_json) is
outside the embedding. -/
def Diagram.LoadParsed (d : Diagram) (cs : List Class) (rs : List Relationship) :
    Except String Unit × Diagram :=
  let d2 := { d with classes := cs, relationships := rs }
  match diagramChecks cs rs with
  | Except.ok _ => (Except.ok (), d2)
  | Except.error e => (Except.error ("Error: " ++ e), d2)

end model

namespace commands

/-- Command from src/src/commands/base_commands.cpp: the polymorphic mutation
payload is embedded as the Execute function itself (each concrete command's
Execute is a deterministic function of the diagram given its stored parsed
arguments); prior_state is the optional snapshot; Trackable() is constant
per concrete command. -/
structure Command where
  exec : model.Diagram → Except String model.Diagram
  trackable : Bool
  prior_state : Option model.Diagram

/-- Command::Commit: take a full copy of the diagram as the prior state,
then Execute. -/
def Command.Commit (c : Command) (d : model.Diagram) :
    Command × Except String model.Diagram :=
  let c2 := { c with prior_state := some d }
  (c2, c2.exec d)

/-- Command::Undo: untrackable commands are a no-op success; otherwise the
snapshot replaces the diagram wholesale, and a never-committed command
fails. -/
def Command.Undo (c : Command) (d : model.Diagram) : Except String model.Diagram :=
  if !c.trackable then Except.ok d
  else
    match c.prior_state with
    | some p => Except.ok p
    | none => Except.error "No prior state to restore"

/-- Timeline from src/src/commands/timeline.hpp / src/src/main.cpp. -/
structure Timeline where
  timeline : List Command
  index : Nat

/-- Timeline::Add: only trackable commands are recorded; erase from the
cursor to the end, append, advance the cursor. -/
def Timeline.Add (tl : Timeline) (cmd : Command) : Timeline :=
  if cmd.trackable then
    { timeline := tl.timeline.take tl.index ++ [cmd], index := tl.index + 1 }
  else tl

/-- Timeline::Undo: fails at the start, else decrements the cursor and
returns the command there.  (The `none` branch is unreachable while the
cursor stays within the history, which every Timeline operation
preserves.) -/
def Timeline.Undo (tl : Timeline) : Except String Command × Timeline :=
  if tl.index = 0 then (Except.error "Cannot undo any further", tl)
  else
    match tl.timeline[tl.index - 1]? with
    | some cmd => (Except.ok cmd, { tl with index := tl.index - 1 })
    | none => (Except.error "Cannot undo any further", tl)

/-- Timeline::Redo: fails at or past the end, else returns the command at
the cursor and increments it. -/
def Timeline.Redo (tl : Timeline) : Except String Command × Timeline :=
  if tl.index ≥ tl.timeline.length then (Except.error "Cannot redo any further", tl)
  else
    match tl.timeline[tl.index]? with
    | some cmd => (Except.ok cmd, { tl with index := tl.index + 1 })
    | none => (Except.error "Cannot redo any further", tl)

/-- The mutable state the CLI loop owns: the Diagram and Timeline
singletons. -/
structure CliState where
  diagram : model.Diagram
  timeline : Timeline

/-- UndoCommand::Execute from src/src/commands/completers.hpp: pop the
timeline and invoke Undo on the returned command. -/
def undoExecute (s : CliState) : Except String Unit × CliState :=
  match s.timeline.Undo with
  | (Except.error e, tl2) => (Except.error e, { s with timeline := tl2 })
  | (Except.ok cmd, tl2) =>
    match cmd.Undo s.diagram with
    | Except.ok d2 => (Except.ok (), { diagram := d2, timeline := tl2 })
    | Except.error e => (Except.error e, { s with timeline := tl2 })

/-- RedoCommand::Execute: advance the timeline and re-run Execute on the
returned command (Execute, not Commit: the snapshot is not retaken). -/
def redoExecute (s : CliState) : Except String Unit × CliState :=
  match s.timeline.Redo with
  | (Except.error e, tl2) => (Except.error e, { s with timeline := tl2 })
  | (Except.ok cmd, tl2) =>
    match cmd.exec s.diagram with
    | Except.ok d2 => (Except.ok (), { diagram := d2, timeline := tl2 })
    | Except.error e => (Except.error e, { s with timeline := tl2 })

/-- One iteration of the CLI loop in src/src/main.cpp for an already
constructed command: Commit against the diagram and, on success, record the
committed command in the timeline. -/
def commitAndAdd (s : CliState) (c : Command) : Except String Unit × CliState :=
  match c.Commit s.diagram with
  | (c2, Except.ok d2) => (Except.ok (), { diagram := d2, timeline := s.timeline.Add c2 })
  | (_, Except.error e) => (Except.error e, s)

/-- Commit a sequence of trackable commands in order, each through the CLI
loop; `none` when any Commit fails. -/
def commitAll :
    List (model.Diagram → Except String model.Diagram) → CliState → Option CliState
  | [], s => some s
  | f :: fs, s =>
    match commitAndAdd s { exec := f, trackable := true, prior_state := none } with
    | (Except.ok _, s2) => commitAll fs s2
    | (Except.error _, _) => none

/-- n invocations of the undo command, all required to succeed. -/
def undoAll : Nat → CliState → Option CliState
  | 0, s => some s
  | n + 1, s =>
    match undoExecute s with
    | (Except.ok _, s2) => undoAll n s2
    | (Except.error _, _) => none

/-- n invocations of the redo command, all required to succeed. -/
def redoAll : Nat → CliState → Option CliState
  | 0, s => some s
  | n + 1, s =>
    match redoExecute s with
    | (Except.ok _, s2) => redoAll n s2
    | (Except.error _, _) => none

/-- A concrete command Execute body: delegate to a diagram mutator, as e.g.
AddClassCommand::Execute delegates to Diagram::AddClass. -/
def liftMut (f : model.Diagram → Except String Unit × model.Diagram) :
    model.Diagram → Except String model.Diagram :=
  fun d =>
    match f d with
    | (Except.ok _, d2) => Except.ok d2
    | (Except.error e, _) => Except.error e

end commands

deriving instance DecidableEq for Except

/-- A character that cannot extend a finished type expression to the left of
it: not alphanumeric/underscore, not a star, not an opening bracket.  The
list separators (comma) and all three closers are safe. -/
def safeChar (c : Char) : Bool :=
  !(AlNum c) && !(c == '*') && !(c == '[') && !(c == '(') && !(c == '<')

/-- Whether appending this text after a finished type expression leaves the
expression's parse unchanged: empty, or starting with a safe character. -/
def safeHead : List Char → Bool
  | [] => true
  | c :: _ => safeChar c

/-- The character data of ",t1,t2,...,tn": each element of the list prefixed
with a comma.  Dropping the leading comma yields the body of a delimited
type list "t1,...,tn". -/
def commaJoin : List (List Char) → List Char
  | [] => []
  | t :: ts => (',' :: t) ++ commaJoin ts

/-- The body "t1,...,tn" of a delimited type list (empty for no
arguments). -/
def typeListBody (ts : List (List Char)) : List Char := (commaJoin ts).drop 1

namespace commands

/-- The records a successful Commit chain leaves behind: each command in the
list is trackable, holds the diagram before its own execution as its
snapshot, and its Execute maps that diagram to the next one. -/
inductive CommitChain : model.Diagram → List Command → model.Diagram → Prop where
  | nil (d : model.Diagram) : CommitChain d [] d
  | cons (c : Command) (d d1 d2 : model.Diagram) (cs : List Command)
      (htr : c.trackable = true) (hpr : c.prior_state = some d)
      (hex : c.exec d = Except.ok d1) (hch : CommitChain d1 cs d2) :
      CommitChain d (c :: cs) d2

end commands

/-! Sanity checks of the embedding against the doctest cases recorded in the
source files (utils, diagram, class). -/

example : ValidType "Alpha".data 0 = Except.ok 5 := by decide
example : ValidType "_Test".data 0 = Except.ok 5 := by decide
example : ValidType "tes**".data 0 = Except.ok 5 := by decide
example : (ValidType "Alpha<".data 0).isOk = false := by decide
example : ValidType "Alpha<>".data 0 = Except.ok 7 := by decide
example : ValidType "Alpha[]".data 0 = Except.ok 7 := by decide
example : ValidType "Alpha()".data 0 = Except.ok 7 := by decide
example : ValidType "A<int>".data 0 = Except.ok 6 := by decide
example : (ValidType "A<int".data 0).isOk = false := by decide
example : ValidType "A<int,int>".data 0 = Except.ok 10 := by decide
example : ValidType "A<int*,int**>*".data 0 = Except.ok 14 := by decide
example : (ValidType "A[int,int,".data 0).isOk = false := by decide
example : (ValidType "A[int^int".data 0).isOk = false := by decide
example : ValidType "A<B[int],C(int)>".data 0 = Except.ok 16 := by decide
example : (ValidType "A<B[int],C(int)".data 0).isOk = false := by decide
example : ValidIdentifier "test3".data 0 = Except.ok 5 := by decide
example : (ValidIdentifier "1test".data 0).isOk = false := by decide
example : (ValidIdentifier "".data 0).isOk = false := by decide
example : (ValidIdentifier "<test>".data 0).isOk = false := by decide


/-! Small general helpers used by several claim proofs. -/

theorem exceptIsOk_exists {ε α : Type} (e : Except ε α) :
    e.isOk = true ↔ ∃ v, e = Except.ok v := by
  cases e <;> simp [Except.isOk, Except.toBool]

theorem listLt_irrefl : ∀ l : List Char, listLt l l = false := by
  intro l
  induction l with
  | nil => rfl
  | cons a as ih => simp [listLt, lt_irrefl, ih]

theorem strLt_irrefl (s : String) : strLt s s = false := listLt_irrefl s.data

theorem checkVT_ok (name tag : String) (h : (ValidType name.data 0).isOk = true) :
    CheckVT name tag = Except.ok () := by
  unfold CheckVT CheckWith
  cases hv : ValidType name.data 0 with
  | ok v => rfl
  | error e => rw [hv] at h; simp [Except.isOk, Except.toBool] at h

theorem checkVT_error (name tag : String) (h : (ValidType name.data 0).isOk = false) :
    ∃ m, CheckVT name tag = Except.error m := by
  unfold CheckVT CheckWith
  cases hv : ValidType name.data 0 with
  | ok v => rw [hv] at h; simp [Except.isOk, Except.toBool] at h
  | error e => exact ⟨_, rfl⟩

theorem checkVI_ok (name tag : String) (h : (ValidIdentifier name.data 0).isOk = true) :
    CheckVI name tag = Except.ok () := by
  unfold CheckVI CheckWith
  cases hv : ValidIdentifier name.data 0 with
  | ok v => rfl
  | error e => rw [hv] at h; simp [Except.isOk, Except.toBool] at h

theorem checkVI_error (name tag : String) (h : (ValidIdentifier name.data 0).isOk = false) :
    ∃ m, CheckVI name tag = Except.error m := by
  unfold CheckVI CheckWith
  cases hv : ValidIdentifier name.data 0 with
  | ok v => rw [hv] at h; simp [Except.isOk, Except.toBool] at h
  | error e => exact ⟨_, rfl⟩

/-- C3, as the claim states it, fails on the code: `Diagram::AddClass`
validates the name with `Check<ValidType>` (through `GetClass` and
`Class::From`), and the check only requires a valid type expression to START
at offset 0.  So the type expressions "A<int>" and "x*" are accepted, and so
is "a b" (its prefix "a" parses; the class is stored under the full string
"a b"), while the claim demands an error and no new class for each. -/
theorem c3_counterexample_addClass_accepts_non_identifiers :
    ((model.Diagram.mk [] []).AddClass "A<int>").1 = Except.ok () ∧
    ((model.Diagram.mk [] []).AddClass "A<int>").2.classes.map model.Class.name = ["A<int>"] ∧
    ((model.Diagram.mk [] []).AddClass "x*").1 = Except.ok () ∧
    ((model.Diagram.mk [] []).AddClass "a b").1 = Except.ok () ∧
    ((model.Diagram.mk [] []).AddClass "a b").2.classes.map model.Class.name = ["a b"] := by
  decide

/-- C3 (amended): `Diagram::AddClass(name)` succeeds exactly when a valid
type expression starts at offset 0 of `name` (ValidType acts as a prefix
parser) and no class with exactly that name is present; when it fails the
diagram is unchanged.  In particular "A<int>", "x*" and "a b" are all
accepted on an empty diagram and stored under the given full string. -/
theorem c3_amended_addClass_validates_type_prefix :
    (∀ (d : model.Diagram) (name : String),
      ((d.AddClass name).1 = Except.ok () ↔
        ((ValidType name.data 0).isOk = true ∧ ∀ c ∈ d.classes, c.name ≠ name)) ∧
      ((d.AddClass name).1 = Except.ok () ∨ (d.AddClass name).2 = d)) ∧
    ((model.Diagram.mk [] []).AddClass "A<int>").2.classes.map model.Class.name = ["A<int>"] ∧
    ((model.Diagram.mk [] []).AddClass "x*").2.classes.map model.Class.name = ["x*"] ∧
    ((model.Diagram.mk [] []).AddClass "a b").2.classes.map model.Class.name = ["a b"] := by
  refine ⟨?_, by decide, by decide, by decide⟩
  intro d name
  cases hvb : (ValidType name.data 0).isOk with
  | false =>
    obtain ⟨m, hcv⟩ := checkVT_error name "class name" hvb
    have hg : d.GetClass name = Except.error m := by
      simp [model.Diagram.GetClass, hcv]
    have hfrom : model.Class.From name = Except.error m := by
      simp [model.Class.From, hcv]
    have hres : d.AddClass name = (Except.error m, d) := by
      simp [model.Diagram.AddClass, hg, hfrom]
    rw [hres]
    constructor
    · simp
    · right; rfl
  | true =>
    have hcv := checkVT_ok name "class name" hvb
    cases hf : d.classes.findIdx? (fun c => c.name == name) with
    | none =>
      have hg : d.GetClass name = Except.error ("class '" ++ name ++ "' does not exist") := by
        simp [model.Diagram.GetClass, hcv, hf]
      have hfrom : model.Class.From name =
          Except.ok { name := name, fields := [], methods := [], position := { x := 0, y := 0 } } := by
        simp [model.Class.From, hcv]
      have hres : d.AddClass name = (Except.ok (),
          { d with classes :=
              d.classes ++ [{ name := name, fields := [], methods := [], position := { x := 0, y := 0 } }] }) := by
        simp [model.Diagram.AddClass, hg, hfrom]
      rw [List.findIdx?_eq_none_iff] at hf
      rw [hres]
      constructor
      · constructor
        · intro _
          exact ⟨rfl, fun c hc => by simpa using hf c hc⟩
        · intro _
          rfl
      · left; rfl
    | some i =>
      have hg : d.GetClass name = Except.ok i := by
        simp [model.Diagram.GetClass, hcv, hf]
      have hres : d.AddClass name =
          (Except.error ("Class '" ++ name ++ "' cannot be added because it already exists"), d) := by
        simp [model.Diagram.AddClass, hg]
      rw [List.findIdx?_eq_some_iff_getElem] at hf
      obtain ⟨hlt, hp, -⟩ := hf
      rw [hres]
      constructor
      · constructor
        · intro h
          exact absurd h (by simp)
        · rintro ⟨-, hall⟩
          exact absurd (hall _ (List.getElem_mem hlt)) (by simpa using hp)
      · right; rfl

/-- C5, as the claim states it, fails on the code: `Diagram::AddClass` only
does push_back (no re-sort; only RenameClass and the relationship mutators
sort), so adding "b" then "a" to an empty diagram leaves the class sequence
["b", "a"], not the sorted ["a", "b"] the claim requires. -/
theorem c5_counterexample_addClass_does_not_sort :
    ((((model.Diagram.mk [] []).AddClass "b").2).AddClass "a").2.classes.map model.Class.name
      = ["b", "a"] ∧
    (["b", "a"] : List String) ≠ ["a", "b"] := by
  decide

/-- C5 (amended): a successful AddClass appends the new class at the end of
the sequence, so the classes stand in insertion order, not sorted by name:
for any two distinct valid names, adding `y` then `x` to an empty diagram
leaves the sequence [y, x] — in particular unsorted whenever x < y. -/
theorem c5_amended_addClass_appends_in_insertion_order :
    ∀ x y : String, (ValidType x.data 0).isOk = true → (ValidType y.data 0).isOk = true →
      x ≠ y →
      ((((model.Diagram.mk [] []).AddClass y).2).AddClass x).2.classes.map model.Class.name
        = [y, x] := by
  intro x y hx hy hne
  have hcy := checkVT_ok y "class name" hy
  have hcx := checkVT_ok x "class name" hx
  have hg1 : (model.Diagram.mk [] []).GetClass y
      = Except.error ("class '" ++ y ++ "' does not exist") := by
    simp [model.Diagram.GetClass, hcy]
  have hfrom1 : model.Class.From y =
      Except.ok { name := y, fields := [], methods := [], position := { x := 0, y := 0 } } := by
    simp [model.Class.From, hcy]
  have h1 : ((model.Diagram.mk [] []).AddClass y).2 =
      model.Diagram.mk [{ name := y, fields := [], methods := [], position := { x := 0, y := 0 } }] [] := by
    simp [model.Diagram.AddClass, hg1, hfrom1]
  rw [h1]
  have hf2 : ([{ name := y, fields := [], methods := [], position := { x := 0, y := 0 } }] :
      List model.Class).findIdx? (fun c => c.name == x) = none := by
    rw [List.findIdx?_eq_none_iff]
    intro c hc
    simp only [List.mem_singleton] at hc
    subst hc
    simpa using fun h => hne h.symm
  have hg2 : (model.Diagram.mk
      [{ name := y, fields := [], methods := [], position := { x := 0, y := 0 } }] []).GetClass x
      = Except.error ("class '" ++ x ++ "' does not exist") := by
    simp [model.Diagram.GetClass, hcx, hf2]
  have hfrom2 : model.Class.From x =
      Except.ok { name := x, fields := [], methods := [], position := { x := 0, y := 0 } } := by
    simp [model.Class.From, hcx]
  simp [model.Diagram.AddClass, hg2, hfrom2]

/-- C5 witness: the amended statement applied at x = "a", y = "b". -/
theorem c5_witness_concrete_append_order :
    (((( model.Diagram.mk [] []).AddClass "b").2).AddClass "a").2.classes.map model.Class.name
      = ["b", "a"] :=
  c5_amended_addClass_appends_in_insertion_order "a" "b" (by decide) (by decide) (by decide)

/-- C6, as the claim states it, fails on the code: `Method::operator<=>`
(the order `Class::AddMethod` sorts by) compares the parameter-list LENGTH
before the pairwise parameter types, so after adding f(b:int)->void and
f(a:float,c:int)->void the one-parameter method — whose first parameter
type is "int" — precedes the two-parameter one whose first parameter type
is "float", the opposite of the claimed order. -/
theorem c6_counterexample_method_order_uses_length_first :
    (((model.Class.mk "C" [] [] ⟨0, 0⟩).AddMethod "f" "void"
        [⟨"b", "int"⟩]).1 = Except.ok ()) ∧
    ((((model.Class.mk "C" [] [] ⟨0, 0⟩).AddMethod "f" "void" [⟨"b", "int"⟩]).2.AddMethod
        "f" "void" [⟨"a", "float"⟩, ⟨"c", "int"⟩]).1 = Except.ok ()) ∧
    ((((model.Class.mk "C" [] [] ⟨0, 0⟩).AddMethod "f" "void" [⟨"b", "int"⟩]).2.AddMethod
        "f" "void" [⟨"a", "float"⟩, ⟨"c", "int"⟩]).2.methods.map
          (fun m => m.parameters.map model.Parameter.type))
      = [["int"], ["float", "int"]] := by
  decide

/-- C6 (amended): a Class keeps its methods sorted by Method::operator<=>,
which compares the method name first, then the parameter-list LENGTH, then
the parameter types pairwise by position, then the return type (it is
MethodSignature::operator<=> that compares pairwise types before length);
so after adding f(b:int)->void and f(a:float,c:int)->void, the shorter
method — the one whose first parameter type is "int" — precedes the one
whose first parameter type is "float" in the observable method sequence. -/
theorem c6_amended_method_order_compares_length_before_types :
    (∀ a b : model.Method, a.name = b.name → a.parameters.length < b.parameters.length →
      model.Method.cmp a b = Ordering.lt) ∧
    ((((model.Class.mk "C" [] [] ⟨0, 0⟩).AddMethod "f" "void" [⟨"b", "int"⟩]).2.AddMethod
        "f" "void" [⟨"a", "float"⟩, ⟨"c", "int"⟩]).2.methods.map
          (fun m => m.parameters.map model.Parameter.type))
      = [["int"], ["float", "int"]] := by
  constructor
  · intro a b hn hlen
    have h1 : model.cmpStr a.name b.name = Ordering.eq := by
      rw [hn]
      simp [model.cmpStr, strLt_irrefl]
    have h2 : compare a.parameters.length b.parameters.length = Ordering.lt :=
      Nat.compare_eq_lt.mpr hlen
    simp [model.Method.cmp, h1, h2]
  · decide

/-- C6 witness: the general ordering fact applied to the two concrete
methods of the claim. -/
theorem c6_witness_shorter_method_precedes :
    model.Method.cmp (model.Method.mk "f" "void" [⟨"b", "int"⟩])
      (model.Method.mk "f" "void" [⟨"a", "float"⟩, ⟨"c", "int"⟩]) = Ordering.lt :=
  c6_amended_method_order_compares_length_before_types.1 _ _ rfl (by decide)

/-- C7: the code contradicts the claim (and the spec's "re-runs the same
validator" rule): `Field::Rename` validates the new NAME with
Check<ValidType> — under the error tag "field type", a copy of the line in
`Field::ChangeType` — while the Field constructor validates the name with
Check<ValidIdentifier>.  So renaming a field to the type expressions "x*"
or "A<int>" SUCCEEDS (directly and through Class::RenameField), where the
claim requires failure; and the two validators also disagree in the other
direction ("A<" passes the constructor's prefix identifier check but fails
Rename's type check). -/
theorem c7_field_rename_validates_as_type_expression :
    (model.Field.mk "a" "int").Rename "x*" = (Except.ok (), model.Field.mk "x*" "int") ∧
    (model.Field.mk "a" "int").Rename "A<int>" = (Except.ok (), model.Field.mk "A<int>" "int") ∧
    ((model.Class.mk "C" [model.Field.mk "a" "int"] [] ⟨0, 0⟩).RenameField "a" "x*").1
      = Except.ok () ∧
    ((model.Class.mk "C" [model.Field.mk "a" "int"] [] ⟨0, 0⟩).RenameField "a" "x*").2.fields
      = [model.Field.mk "x*" "int"] ∧
    ((model.Field.mk "a" "int").Rename "A<").1.isOk = false ∧
    (CheckVI "A<" "field name").isOk = true := by
  decide

/-- C9: the Timeline is a branch-truncating linear history, exactly as the
claim describes: Add records only trackable commands, discarding everything
at or after the cursor before appending and advancing; Undo fails exactly
at cursor 0 and otherwise decrements the cursor and returns the command at
the new cursor; Redo fails exactly at cursor = history length (under the
cursor-within-history invariant every operation preserves) and otherwise
returns the command at the cursor and increments it. -/
theorem c9_timeline_branch_truncating_history :
    ∀ (tl : commands.Timeline) (c : commands.Command),
      (c.trackable = true →
        tl.Add c = { timeline := tl.timeline.take tl.index ++ [c], index := tl.index + 1 }) ∧
      (c.trackable = false → tl.Add c = tl) ∧
      (tl.index = 0 → tl.Undo = (Except.error "Cannot undo any further", tl)) ∧
      (tl.index ≠ 0 → tl.index ≤ tl.timeline.length →
        ∃ cmd, tl.timeline[tl.index - 1]? = some cmd ∧
          tl.Undo = (Except.ok cmd, { tl with index := tl.index - 1 })) ∧
      (tl.index = tl.timeline.length →
        tl.Redo = (Except.error "Cannot redo any further", tl)) ∧
      (tl.index < tl.timeline.length →
        ∃ cmd, tl.timeline[tl.index]? = some cmd ∧
          tl.Redo = (Except.ok cmd, { tl with index := tl.index + 1 })) := by
  intro tl c
  refine ⟨?_, ?_, ?_, ?_, ?_, ?_⟩
  · intro h
    simp [commands.Timeline.Add, h]
  · intro h
    simp [commands.Timeline.Add, h]
  · intro h
    simp [commands.Timeline.Undo, h]
  · intro h0 hle
    have hlt : tl.index - 1 < tl.timeline.length := by omega
    have hg : tl.timeline[tl.index - 1]? = some tl.timeline[tl.index - 1] :=
      List.getElem?_eq_getElem hlt
    refine ⟨_, hg, ?_⟩
    unfold commands.Timeline.Undo
    rw [if_neg h0, hg]
  · intro h
    have hge : tl.timeline.length ≤ tl.index := le_of_eq h.symm
    unfold commands.Timeline.Redo
    rw [if_pos hge]
  · intro h
    have hnge : ¬ tl.timeline.length ≤ tl.index := by omega
    have hg : tl.timeline[tl.index]? = some tl.timeline[tl.index] :=
      List.getElem?_eq_getElem h
    refine ⟨_, hg, ?_⟩
    unfold commands.Timeline.Redo
    rw [if_neg hnge, hg]

/-- C9 witness: the Timeline facts applied at a concrete timeline and
command. -/
theorem c9_witness_timeline_concrete :
    commands.Timeline.Add { timeline := [], index := 0 }
        { exec := fun d => Except.ok d, trackable := true, prior_state := none }
      = { timeline := [{ exec := fun d => Except.ok d, trackable := true, prior_state := none }],
          index := 1 } ∧
    commands.Timeline.Undo { timeline := [], index := 0 }
      = (Except.error "Cannot undo any further", { timeline := [], index := 0 }) :=
  ⟨(c9_timeline_branch_truncating_history { timeline := [], index := 0 }
      { exec := fun d => Except.ok d, trackable := true, prior_state := none }).1 rfl,
   (c9_timeline_branch_truncating_history { timeline := [], index := 0 }
      { exec := fun d => Except.ok d, trackable := true, prior_state := none }).2.2.1 rfl⟩

/-- C10: for a diagram containing a relationship (s, t) (with names the
lookup validator accepts), the no-op endpoint changes collide with the
relationship itself — relationship identity ignores the type — so both
return the conflict error and leave the diagram unchanged. -/
theorem c10_noop_endpoint_change_is_conflict :
    ∀ (d : model.Diagram) (s t : String), (d.GetRelationship s t).isOk = true →
      d.ChangeRelationshipSource s t s =
        (Except.error ("a relationship between " ++ s ++ " and " ++ t ++ " already exists"), d) ∧
      d.ChangeRelationshipDestination s t t =
        (Except.error ("a relationship between " ++ s ++ " and " ++ t ++ " already exists"), d) := by
  intro d s t h
  obtain ⟨i, hi⟩ := (exceptIsOk_exists _).mp h
  constructor
  · simp [model.Diagram.ChangeRelationshipSource, hi]
  · simp [model.Diagram.ChangeRelationshipDestination, hi]

/-- C10 witness: the conflict applied to a concrete two-class diagram with
one a→b relationship. -/
theorem c10_witness_concrete_conflict :
    (model.Diagram.mk
        [{ name := "a", fields := [], methods := [], position := { x := 0, y := 0 } },
         { name := "b", fields := [], methods := [], position := { x := 0, y := 0 } }]
        [{ source := "a", destination := "b",
           type := model.RelationshipType.Aggregation }]).ChangeRelationshipSource "a" "b" "a"
      = (Except.error ("a relationship between " ++ "a" ++ " and " ++ "b" ++ " already exists"),
         model.Diagram.mk
          [{ name := "a", fields := [], methods := [], position := { x := 0, y := 0 } },
           { name := "b", fields := [], methods := [], position := { x := 0, y := 0 } }]
          [{ source := "a", destination := "b", type := model.RelationshipType.Aggregation }]) :=
  (c10_noop_endpoint_change_is_conflict _ "a" "b" (by decide)).1

/-! Order facts about the embedded lexicographic string comparison, used to
reason about the sort-based Unique check and the includes scan. -/

theorem listLt_trans : ∀ l1 l2 l3 : List Char,
    listLt l1 l2 = true → listLt l2 l3 = true → listLt l1 l3 = true := by
  intro l1
  induction l1 with
  | nil =>
    intro l2 l3 h12 h23
    cases l2 with
    | nil => simp [listLt] at h12
    | cons b bs =>
      cases l3 with
      | nil => simp [listLt] at h23
      | cons c cs => simp [listLt]
  | cons a as ih =>
    intro l2 l3 h12 h23
    cases l2 with
    | nil => simp [listLt] at h12
    | cons b bs =>
      cases l3 with
      | nil => simp [listLt] at h23
      | cons c cs =>
        simp only [listLt] at h12 h23 ⊢
        by_cases hab : a < b
        · by_cases hbc : b < c
          · have hac : a < c := lt_trans hab hbc
            simp [hac]
          · rw [if_neg hbc] at h23
            by_cases hcb : c < b
            · simp [hcb] at h23
            · rw [if_neg hcb] at h23
              have hbceq : b = c := le_antisymm (not_lt.mp hcb) (not_lt.mp hbc)
              subst hbceq
              simp [hab]
        · rw [if_neg hab] at h12
          by_cases hba : b < a
          · simp [hba] at h12
          · rw [if_neg hba] at h12
            have habeq : a = b := le_antisymm (not_lt.mp hba) (not_lt.mp hab)
            subst habeq
            by_cases hac : a < c
            · simp [hac]
            · rw [if_neg hac] at h23 ⊢
              by_cases hca : c < a
              · simp [hca] at h23
              · rw [if_neg hca] at h23
                rw [if_neg hca]
                exact ih bs cs h12 h23

theorem listLt_asymm (a b : List Char) (h : listLt a b = true) : listLt b a = false := by
  cases hba : listLt b a with
  | false => rfl
  | true =>
    have := listLt_trans a b a h hba
    rw [listLt_irrefl] at this
    exact absurd this (by simp)

theorem listLt_connex : ∀ l1 l2 : List Char,
    listLt l1 l2 = false → listLt l2 l1 = false → l1 = l2 := by
  intro l1
  induction l1 with
  | nil =>
    intro l2 h12 h21
    cases l2 with
    | nil => rfl
    | cons b bs => simp [listLt] at h12
  | cons a as ih =>
    intro l2 h12 h21
    cases l2 with
    | nil => simp [listLt] at h21
    | cons b bs =>
      simp only [listLt] at h12 h21
      by_cases hab : a < b
      · simp [hab] at h12
      · rw [if_neg hab] at h12
        by_cases hba : b < a
        · simp [hba] at h21
        · rw [if_neg hba] at h12
          rw [if_neg hba, if_neg hab] at h21
          have habeq : a = b := le_antisymm (not_lt.mp hba) (not_lt.mp hab)
          subst habeq
          rw [ih bs h12 h21]

theorem strLt_trans (a b c : String) (h1 : strLt a b = true) (h2 : strLt b c = true) :
    strLt a c = true :=
  listLt_trans a.data b.data c.data h1 h2

theorem strLt_asymm (a b : String) (h : strLt a b = true) : strLt b a = false :=
  listLt_asymm a.data b.data h

theorem strLt_connex (a b : String) (h1 : strLt a b = false) (h2 : strLt b a = false) :
    a = b := by
  have h := listLt_connex a.data b.data h1 h2
  cases a
  cases b
  exact congrArg String.mk h

theorem pairLt_irrefl (p : String × String) : pairLt p p = false := by
  simp [pairLt, strLt_irrefl]

theorem pairLt_trans (p q r : String × String)
    (h1 : pairLt p q = true) (h2 : pairLt q r = true) : pairLt p r = true := by
  simp only [pairLt, Bool.or_eq_true, Bool.and_eq_true, beq_iff_eq] at h1 h2 ⊢
  rcases h1 with h1 | ⟨h1e, h1d⟩
  · rcases h2 with h2 | ⟨h2e, h2d⟩
    · exact Or.inl (strLt_trans _ _ _ h1 h2)
    · rw [h2e] at h1
      exact Or.inl h1
  · rcases h2 with h2 | ⟨h2e, h2d⟩
    · rw [h1e]
      exact Or.inl h2
    · exact Or.inr ⟨h1e.trans h2e, strLt_trans _ _ _ h1d h2d⟩

theorem pairLt_connex (p q : String × String)
    (h1 : pairLt p q = false) (h2 : pairLt q p = false) : p = q := by
  simp only [pairLt, Bool.or_eq_false_iff] at h1 h2
  obtain ⟨h1a, h1b⟩ := h1
  obtain ⟨h2a, h2b⟩ := h2
  have he1 : p.1 = q.1 := strLt_connex _ _ h1a h2a
  have he2 : p.2 = q.2 := by
    have hb1 : (p.1 == q.1) = true := by simp [he1]
    have hb2 : (q.1 == p.1) = true := by simp [he1]
    rw [hb1, Bool.true_and] at h1b
    rw [hb2, Bool.true_and] at h2b
    exact strLt_connex _ _ h1b h2b
  exact Prod.ext he1 he2

/-! Relating the sort-based `UniqueCheck` to key-level `Nodup`, and the
`includesScan` to membership.  All the sorted collections of the model are
keyed (classes by name, relationships by the (source, destination) pair),
with a strict key order that is irreflexive, transitive and connex. -/

theorem lt_asymm_of (lt : β → β → Bool)
    (hirr : ∀ x, lt x x = false)
    (htr : ∀ x y z, lt x y = true → lt y z = true → lt x z = true)
    (x y : β) (h : lt x y = true) : lt y x = false := by
  cases hyx : lt y x with
  | false => rfl
  | true =>
    have hxx := htr x y x h hyx
    rw [hirr] at hxx
    exact absurd hxx (by simp)

theorem chain_strict_of_sorted_noAdjDup
    (k : α → β) (lt : β → β → Bool) (beq : α → α → Bool)
    (hbeq : ∀ a b, beq a b = true ↔ k a = k b)
    (hco : ∀ x y, lt x y = false → lt y x = false → x = y) :
    ∀ s : List α, List.Pairwise (fun a b => (!(lt (k b) (k a))) = true) s →
      hasAdjacentDup beq s = false →
      List.Chain' (fun a b => lt (k a) (k b) = true) s := by
  intro s
  induction s with
  | nil => intro _ _; exact List.chain'_nil
  | cons a rest ih =>
    intro hs hd
    cases rest with
    | nil => simp
    | cons b rest2 =>
      simp only [hasAdjacentDup, Bool.or_eq_false_iff] at hd
      obtain ⟨hd1, hd2⟩ := hd
      have hab_le : (!(lt (k b) (k a))) = true :=
        (List.pairwise_cons.mp hs).1 b (List.mem_cons_self b rest2)
      have hba : lt (k b) (k a) = false := by simpa using hab_le
      have hkne : k a ≠ k b := by
        intro he
        have hb : beq a b = true := (hbeq a b).mpr he
        rw [hd1] at hb
        exact absurd hb (by simp)
      have hab : lt (k a) (k b) = true := by
        cases habc : lt (k a) (k b) with
        | true => rfl
        | false => exact absurd (hco _ _ habc hba) hkne
      exact List.Chain'.cons hab (ih (List.pairwise_cons.mp hs).2 hd2)

theorem nodup_keys_of_uniqueCheck_ok
    (k : α → β) (lt : β → β → Bool) (le beq : α → α → Bool)
    (hle : ∀ a b, le a b = !(lt (k b) (k a)))
    (hbeq : ∀ a b, beq a b = true ↔ k a = k b)
    (hirr : ∀ x, lt x x = false)
    (htr : ∀ x y z, lt x y = true → lt y z = true → lt x z = true)
    (hco : ∀ x y, lt x y = false → lt y x = false → x = y)
    (c : List α) (tag : String)
    (h : UniqueCheck le beq c tag = Except.ok ()) :
    (c.map k).Nodup := by
  have hd : hasAdjacentDup beq (sortBy le c) = false := by
    cases hx : hasAdjacentDup beq (sortBy le c) with
    | false => rfl
    | true =>
      rw [UniqueCheck, hx] at h
      simp at h
  haveI htotal : IsTotal α (fun a b => le a b = true) := by
    constructor
    intro a b
    rw [hle, hle]
    cases hx : lt (k b) (k a) with
    | false => exact Or.inl rfl
    | true =>
      have hy := lt_asymm_of lt hirr htr _ _ hx
      rw [hy]
      exact Or.inr rfl
  haveI htrans : IsTrans α (fun a b => le a b = true) := by
    constructor
    intro a b c hab hbc
    rw [hle] at hab hbc ⊢
    have hba : lt (k b) (k a) = false := by simpa using hab
    have hcb : lt (k c) (k b) = false := by simpa using hbc
    cases hca : lt (k c) (k a) with
    | false => rfl
    | true =>
      cases hx : lt (k a) (k b) with
      | true =>
        have hz := htr _ _ _ hca hx
        rw [hcb] at hz
        exact absurd hz (by simp)
      | false =>
        have hkab : k a = k b := hco _ _ hx hba
        rw [hkab] at hca
        rw [hca] at hcb
        exact absurd hcb (by simp)
  have hperm : (sortBy le c).Perm c := List.perm_insertionSort _ c
  have hsorted : List.Pairwise (fun a b => le a b = true) (sortBy le c) :=
    List.sorted_insertionSort _ c
  have hsorted2 : List.Pairwise (fun a b => (!(lt (k b) (k a))) = true) (sortBy le c) := by
    refine hsorted.imp ?_
    intro a b hab
    rw [hle] at hab
    exact hab
  have hchain := chain_strict_of_sorted_noAdjDup k lt beq hbeq hco (sortBy le c) hsorted2 hd
  haveI : IsTrans α (fun a b => lt (k a) (k b) = true) :=
    ⟨fun a b c hab hbc => htr _ _ _ hab hbc⟩
  have hpw : List.Pairwise (fun a b => lt (k a) (k b) = true) (sortBy le c) :=
    List.chain'_iff_pairwise.mp hchain
  have hne : List.Pairwise (fun a b : α => k a ≠ k b) (sortBy le c) := by
    refine hpw.imp ?_
    intro a b hab he
    rw [he, hirr] at hab
    exact absurd hab (by simp)
  have hnd : ((sortBy le c).map k).Nodup := List.pairwise_map.mpr hne
  exact ((hperm.map k).nodup_iff).mp hnd

theorem uniqueCheck_classes_nodup (cs : List model.Class) (tag : String)
    (h : UniqueCheck model.classLe model.classBeq cs tag = Except.ok ()) :
    (cs.map model.Class.name).Nodup := by
  refine nodup_keys_of_uniqueCheck_ok model.Class.name strLt
    model.classLe model.classBeq (fun a b => rfl) ?_ strLt_irrefl strLt_trans strLt_connex
    cs tag h
  intro a b
  simp [model.classBeq]

theorem uniqueCheck_rels_nodup (rs : List model.Relationship) (tag : String)
    (h : UniqueCheck model.relLe model.relBeq rs tag = Except.ok ()) :
    (rs.map (fun r => (r.source, r.destination))).Nodup := by
  refine nodup_keys_of_uniqueCheck_ok (fun r : model.Relationship => (r.source, r.destination))
    pairLt model.relLe model.relBeq (fun a b => rfl) ?_ pairLt_irrefl pairLt_trans pairLt_connex
    rs tag h
  intro a b
  simp [model.relBeq, Prod.ext_iff]

theorem includesScan_true_mem : ∀ hs ns : List String,
    model.includesScan hs ns = true → ∀ x ∈ ns, x ∈ hs := by
  intro hs
  induction hs with
  | nil =>
    intro ns h x hx
    cases ns with
    | nil => simp at hx
    | cons n ns2 => simp [model.includesScan] at h
  | cons hh hs2 ih =>
    intro ns h x hx
    cases ns with
    | nil => simp at hx
    | cons n ns2 =>
      simp only [model.includesScan] at h
      cases h1 : strLt n hh with
      | true => rw [h1] at h; simp at h
      | false =>
        rw [h1] at h
        simp only [Bool.false_eq_true, if_false] at h
        cases h2 : strLt hh n with
        | true =>
          rw [h2] at h
          simp only [if_true] at h
          exact List.mem_cons_of_mem hh (ih (n :: ns2) h x hx)
        | false =>
          rw [h2] at h
          simp only [Bool.false_eq_true, if_false] at h
          have hnh : n = hh := strLt_connex n hh h1 h2
          rcases List.mem_cons.mp hx with hx1 | hx2
          · rw [hx1, hnh]
            exact List.mem_cons_self hh hs2
          · exact List.mem_cons_of_mem hh (ih ns2 h x hx2)

theorem mem_dedupRun : ∀ (prev : String) (l : List String), ∀ x ∈ l,
    x = prev ∨ x ∈ model.dedupRun prev l := by
  intro prev l
  induction l generalizing prev with
  | nil => intro x hx; simp at hx
  | cons y ys ih =>
    intro x hx
    rcases List.mem_cons.mp hx with hx1 | hx2
    · subst hx1
      simp only [model.dedupRun]
      cases hy : (x == prev) with
      | true => exact Or.inl (by simpa using hy)
      | false =>
        simp only [Bool.false_eq_true, if_false]
        exact Or.inr (List.mem_cons_self x _)
    · simp only [model.dedupRun]
      cases hy : (y == prev) with
      | true =>
        simp only [if_true]
        exact ih prev x hx2
      | false =>
        simp only [Bool.false_eq_true, if_false]
        rcases ih y x hx2 with h1 | h2
        · exact Or.inr (h1 ▸ List.mem_cons_self x _)
        · exact Or.inr (List.mem_cons_of_mem y h2)

theorem mem_dedupAdjacent (l : List String) (x : String) (hx : x ∈ l) :
    x ∈ model.dedupAdjacent l := by
  cases l with
  | nil => simp at hx
  | cons a rest =>
    simp only [model.dedupAdjacent]
    rcases List.mem_cons.mp hx with h1 | h2
    · exact h1 ▸ List.mem_cons_self a _
    · rcases mem_dedupRun a rest x h2 with h3 | h4
      · exact h3 ▸ List.mem_cons_self a _
      · exact List.mem_cons_of_mem a h4

/-- A successful from_json invariant check implies: class names are
duplicate-free, relationship (source, destination) pairs are duplicate-free,
and every relationship endpoint names an existing class. -/
theorem diagramChecks_ok_implies (cs : List model.Class) (rs : List model.Relationship)
    (h : model.diagramChecks cs rs = Except.ok ()) :
    (cs.map model.Class.name).Nodup ∧
    (rs.map (fun r => (r.source, r.destination))).Nodup ∧
    ∀ r ∈ rs, r.source ∈ cs.map model.Class.name ∧
      r.destination ∈ cs.map model.Class.name := by
  unfold model.diagramChecks at h
  cases h1 : UniqueCheck model.classLe model.classBeq cs "class" with
  | error e => rw [h1] at h; simp at h
  | ok u =>
    cases u
    rw [h1] at h
    cases h2 : UniqueCheck model.relLe model.relBeq rs "relationship" with
    | error e => rw [h2] at h; simp at h
    | ok u2 =>
      cases u2
      rw [h2] at h
      replace h : (if model.includesScan (cs.map model.Class.name)
          (model.dedupAdjacent (sortBy model.strLe
            ((rs.map model.Relationship.source) ++ (rs.map model.Relationship.destination))))
          then (Except.ok () : Except String Unit)
          else Except.error "Relationship(s) contain nonexistent class(es)") = Except.ok () := h
      cases h3 : model.includesScan (cs.map model.Class.name)
          (model.dedupAdjacent (sortBy model.strLe
            ((rs.map model.Relationship.source) ++ (rs.map model.Relationship.destination)))) with
      | false => rw [h3] at h; simp at h
      | true =>
        refine ⟨uniqueCheck_classes_nodup cs "class" h1,
          uniqueCheck_rels_nodup rs "relationship" h2, ?_⟩
        intro r hr
        have hmem := includesScan_true_mem _ _ h3
        constructor
        · apply hmem
          apply mem_dedupAdjacent
          unfold sortBy
          rw [List.mem_insertionSort]
          exact List.mem_append_left _ (List.mem_map_of_mem model.Relationship.source hr)
        · apply hmem
          apply mem_dedupAdjacent
          unfold sortBy
          rw [List.mem_insertionSort]
          exact List.mem_append_right _ (List.mem_map_of_mem model.Relationship.destination hr)

/-- C4: referential integrity holds at both boundaries.  A successful
Diagram::DeleteClass(c) leaves no relationship whose source or destination
equals c (DeleteClass filters them out before erasing the class), and the
from_json invariant check run by Load rejects any parsed diagram in which
some relationship endpoint names no class. -/
theorem c4_referential_integrity
    (d : model.Diagram) (c : String)
    (cs : List model.Class) (rs : List model.Relationship) (r0 : model.Relationship)
    (hok : (d.DeleteClass c).1.isOk = true)
    (hr0 : r0 ∈ rs)
    (hmiss : r0.source ∉ cs.map model.Class.name ∨
      r0.destination ∉ cs.map model.Class.name) :
    (∀ r ∈ (d.DeleteClass c).2.relationships, r.source ≠ c ∧ r.destination ≠ c) ∧
    ∀ d0 : model.Diagram, (d0.LoadParsed cs rs).1.isOk = false := by
  have hdel : ∃ i, d.GetClass c = Except.ok i := by
    unfold model.Diagram.DeleteClass at hok
    cases hg : d.GetClass c with
    | error e => rw [hg] at hok; simp [Except.isOk, Except.toBool] at hok
    | ok i => exact ⟨i, rfl⟩
  obtain ⟨i, hg⟩ := hdel
  constructor
  · intro r hr
    unfold model.Diagram.DeleteClass at hr
    rw [hg] at hr
    simp only [List.mem_filter] at hr
    have hp : (!(r.source == c || r.destination == c)) = true := hr.2
    constructor
    · intro he
      rw [he] at hp
      simp at hp
    · intro he
      rw [he] at hp
      simp at hp
  · intro d0
    unfold model.Diagram.LoadParsed
    cases hdc : model.diagramChecks cs rs with
    | ok u =>
      cases u
      obtain ⟨-, -, hall⟩ := diagramChecks_ok_implies cs rs hdc
      rcases hmiss with hm | hm
      · exact absurd (hall r0 hr0).1 hm
      · exact absurd (hall r0 hr0).2 hm
    | error e => simp [Except.isOk, Except.toBool]

/-- C4 witness: deleting class "a" from a two-class diagram with an a→b
relationship, and loading a relationship a→b against an empty class list. -/
theorem c4_witness_concrete :
    (∀ r ∈ ((model.Diagram.mk
        [{ name := "a", fields := [], methods := [], position := { x := 0, y := 0 } },
         { name := "b", fields := [], methods := [], position := { x := 0, y := 0 } }]
        [{ source := "a", destination := "b",
           type := model.RelationshipType.Aggregation }]).DeleteClass "a").2.relationships,
      r.source ≠ "a" ∧ r.destination ≠ "a") ∧
    ∀ d0 : model.Diagram, (d0.LoadParsed []
      [{ source := "a", destination := "b",
         type := model.RelationshipType.Aggregation }]).1.isOk = false :=
  c4_referential_integrity _ "a" []
    [{ source := "a", destination := "b", type := model.RelationshipType.Aggregation }]
    { source := "a", destination := "b", type := model.RelationshipType.Aggregation }
    (by decide) (by decide) (Or.inl (by decide))

/-- C1 counterexample: loading a parsed diagram with duplicate class names
into a diagram holding class "z" returns an error, yet the diagram is NOT
left as it was: from_json assigns the parsed classes and relationships into
the live diagram before running the invariant checks, so the failed load
leaves the duplicate classes in place. -/
theorem c1_counterexample_load_failure_mutates_diagram :
    ((model.Diagram.mk
        [{ name := "z", fields := [], methods := [], position := { x := 0, y := 0 } }]
        []).LoadParsed
        [{ name := "a", fields := [], methods := [], position := { x := 0, y := 0 } },
         { name := "a", fields := [], methods := [], position := { x := 0, y := 0 } }]
        []).1.isOk = false ∧
    ((model.Diagram.mk
        [{ name := "z", fields := [], methods := [], position := { x := 0, y := 0 } }]
        []).LoadParsed
        [{ name := "a", fields := [], methods := [], position := { x := 0, y := 0 } },
         { name := "a", fields := [], methods := [], position := { x := 0, y := 0 } }]
        []).2 ≠
      model.Diagram.mk
        [{ name := "z", fields := [], methods := [], position := { x := 0, y := 0 } }]
        [] := by
  decide

/-- C1 (amended): loading parsed content that violates a model invariant
(duplicate class names, duplicate relationship (source, destination) pairs,
or a relationship endpoint naming no class) returns an error, but the
in-memory diagram is NOT untouched: it ends up holding exactly the parsed
classes and relationships, because from_json assigns them into the live
diagram before running the invariant checks. -/
theorem c1_amended_load_failure_leaves_loaded_state
    (d : model.Diagram) (cs : List model.Class) (rs : List model.Relationship)
    (hviol : ¬ (cs.map model.Class.name).Nodup ∨
             ¬ (rs.map (fun r => (r.source, r.destination))).Nodup ∨
             ∃ r ∈ rs, r.source ∉ cs.map model.Class.name ∨
               r.destination ∉ cs.map model.Class.name) :
    (d.LoadParsed cs rs).1.isOk = false ∧
    (d.LoadParsed cs rs).2 = { classes := cs, relationships := rs } := by
  unfold model.Diagram.LoadParsed
  cases hdc : model.diagramChecks cs rs with
  | ok u =>
    cases u
    obtain ⟨hn1, hn2, hall⟩ := diagramChecks_ok_implies cs rs hdc
    rcases hviol with hv | hv | ⟨r0, hr0, hv⟩
    · exact absurd hn1 hv
    · exact absurd hn2 hv
    · rcases hv with hm | hm
      · exact absurd (hall r0 hr0).1 hm
      · exact absurd (hall r0 hr0).2 hm
  | error e => exact ⟨rfl, rfl⟩

/-- C1 witness: the amended statement at a diagram holding class "z" and a
parsed class list with a duplicated name "a". -/
theorem c1_witness_duplicate_classes :
    ((model.Diagram.mk
        [{ name := "z", fields := [], methods := [], position := { x := 0, y := 0 } }]
        []).LoadParsed
        [{ name := "a", fields := [], methods := [], position := { x := 0, y := 0 } },
         { name := "a", fields := [], methods := [], position := { x := 0, y := 0 } }]
        []).1.isOk = false ∧
    ((model.Diagram.mk
        [{ name := "z", fields := [], methods := [], position := { x := 0, y := 0 } }]
        []).LoadParsed
        [{ name := "a", fields := [], methods := [], position := { x := 0, y := 0 } },
         { name := "a", fields := [], methods := [], position := { x := 0, y := 0 } }]
        []).2 =
      { classes :=
          [{ name := "a", fields := [], methods := [], position := { x := 0, y := 0 } },
           { name := "a", fields := [], methods := [], position := { x := 0, y := 0 } }],
        relationships := [] } :=
  c1_amended_load_failure_leaves_loaded_state _ _ _ (Or.inl (by decide))

/-! The undo/redo round trip (commit phase, undo phase, redo phase). -/

theorem undoAll_add (m n : Nat) : ∀ s, commands.undoAll (m + n) s =
    (commands.undoAll m s).bind (commands.undoAll n) := by
  induction m with
  | zero =>
    intro s
    rw [Nat.zero_add]
    rfl
  | succ m ih =>
    intro s
    rw [Nat.succ_add]
    show commands.undoAll ((m + n) + 1) s = _
    cases hu : commands.undoExecute s with
    | mk r s2 =>
      cases r with
      | ok u => simp [commands.undoAll, hu, ih]
      | error e => simp [commands.undoAll, hu]

theorem commitAll_chain_eq : ∀ (fs : List (model.Diagram → Except String model.Diagram))
    (s0 s1 : commands.CliState),
    s0.timeline.index = s0.timeline.timeline.length →
    commands.commitAll fs s0 = some s1 →
    ∃ cs : List commands.Command,
      commands.CommitChain s0.diagram cs s1.diagram ∧
      cs.length = fs.length ∧
      s1.timeline.timeline = s0.timeline.timeline ++ cs ∧
      s1.timeline.index = s0.timeline.index + cs.length := by
  intro fs
  induction fs with
  | nil =>
    intro s0 s1 hinv hc
    have hs : s1 = s0 := by
      simp [commands.commitAll] at hc
      exact hc.symm
    subst hs
    exact ⟨[], commands.CommitChain.nil _, rfl, by simp, by simp⟩
  | cons f fs' ih =>
    intro s0 s1 hinv hc
    unfold commands.commitAll at hc
    have hcommit : ({ exec := f, trackable := true, prior_state := none } :
          commands.Command).Commit s0.diagram =
        ({ exec := f, trackable := true, prior_state := some s0.diagram }, f s0.diagram) := rfl
    have hca : commands.commitAndAdd s0 { exec := f, trackable := true, prior_state := none } =
        (match f s0.diagram with
         | Except.ok d2 => (Except.ok (), ⟨d2, s0.timeline.Add { exec := f, trackable := true, prior_state := some s0.diagram }⟩)
         | Except.error e => (Except.error e, s0)) := by
      unfold commands.commitAndAdd
      rw [hcommit]
      cases f s0.diagram <;> rfl
    rw [hca] at hc
    cases he : f s0.diagram with
    | error e =>
      rw [he] at hc
      simp at hc
    | ok d2 =>
      rw [he] at hc
      replace hc : commands.commitAll fs'
          ⟨d2, s0.timeline.Add { exec := f, trackable := true, prior_state := some s0.diagram }⟩ =
          some s1 := hc
      have hadd : s0.timeline.Add { exec := f, trackable := true, prior_state := some s0.diagram } =
          ⟨s0.timeline.timeline ++ [{ exec := f, trackable := true, prior_state := some s0.diagram }],
            s0.timeline.index + 1⟩ := by
        simp [commands.Timeline.Add, hinv]
      rw [hadd] at hc
      have hinv2 : (⟨d2, ⟨s0.timeline.timeline ++
            [{ exec := f, trackable := true, prior_state := some s0.diagram }],
            s0.timeline.index + 1⟩⟩ : commands.CliState).timeline.index =
          (⟨d2, ⟨s0.timeline.timeline ++
            [{ exec := f, trackable := true, prior_state := some s0.diagram }],
            s0.timeline.index + 1⟩⟩ : commands.CliState).timeline.timeline.length := by
        simp [hinv]
      obtain ⟨cs', hch, hlen, htl, hix⟩ := ih _ s1 hinv2 hc
      refine ⟨{ exec := f, trackable := true, prior_state := some s0.diagram } :: cs', ?_, ?_, ?_, ?_⟩
      · exact commands.CommitChain.cons _ _ d2 _ cs' rfl rfl he hch
      · simp [hlen]
      · rw [htl]
        simp
      · rw [hix]
        simp
        omega

theorem undoAll_chain : ∀ (cs T : List commands.Command) (d0 dn : model.Diagram),
    commands.CommitChain d0 cs dn →
    commands.undoAll cs.length ⟨dn, ⟨T ++ cs, T.length + cs.length⟩⟩ =
      some ⟨d0, ⟨T ++ cs, T.length⟩⟩ := by
  intro cs
  induction cs with
  | nil =>
    intro T d0 dn hch
    cases hch
    rfl
  | cons c cs' ih =>
    intro T d0 dn hch
    cases hch with
    | cons _ _ d1 _ _ htr hpr hex hch2 =>
      have hsplit : (c :: cs').length = cs'.length + 1 := rfl
      rw [hsplit, undoAll_add cs'.length 1]
      have e1 : T ++ c :: cs' = (T ++ [c]) ++ cs' := by simp
      have e2 : T.length + (cs'.length + 1) = (T ++ [c]).length + cs'.length := by
        simp
        omega
      rw [e1, e2, ih (T ++ [c]) d1 dn hch2]
      have e3 : (T ++ [c]).length = T.length + 1 := by simp
      rw [e3]
      have hget2 : (T ++ c :: cs')[T.length]? = some c := by
        rw [List.getElem?_append_right (Nat.le_refl T.length)]
        simp
      obtain ⟨hlt, hgetT⟩ := List.getElem?_eq_some.mp hget2
      simp [commands.undoAll, commands.undoExecute, commands.Timeline.Undo,
        commands.Command.Undo, hget2, hgetT, htr, hpr]

theorem redoAll_chain : ∀ (cs T : List commands.Command) (d0 dn : model.Diagram),
    commands.CommitChain d0 cs dn →
    commands.redoAll cs.length ⟨d0, ⟨T ++ cs, T.length⟩⟩ =
      some ⟨dn, ⟨T ++ cs, T.length + cs.length⟩⟩ := by
  intro cs
  induction cs with
  | nil =>
    intro T d0 dn hch
    cases hch
    rfl
  | cons c cs' ih =>
    intro T d0 dn hch
    cases hch with
    | cons _ _ d1 _ _ htr hpr hex hch2 =>
      have hih := ih (T ++ [c]) d1 dn hch2
      rw [List.append_assoc] at hih
      have e3 : (T ++ [c]).length = T.length + 1 := by simp
      rw [e3] at hih
      have hget : (T ++ c :: cs')[T.length]? = some c := by
        rw [List.getElem?_append_right (Nat.le_refl T.length)]
        simp
      have hcond : ¬ (T.length ≥ (T ++ c :: cs').length) := by
        simp only [List.length_append, List.length_cons, ge_iff_le]
        omega
      have efin : T.length + (c :: cs').length = T.length + 1 + cs'.length := by
        simp
        omega
      rw [efin]
      show commands.redoAll (cs'.length + 1) _ = _
      simp only [List.singleton_append] at hih
      simp [commands.redoAll, commands.redoExecute, commands.Timeline.Redo,
        hget, hcond, hex, hih]

theorem commitAll_chain_le
    (fs : List (model.Diagram → Except String model.Diagram))
    (s0 s1 : commands.CliState)
    (hinv : s0.timeline.index ≤ s0.timeline.timeline.length)
    (hc : commands.commitAll fs s0 = some s1) :
    ∃ cs : List commands.Command,
      commands.CommitChain s0.diagram cs s1.diagram ∧
      cs.length = fs.length ∧
      ((cs = [] ∧ s1 = s0) ∨
        ∃ T : List commands.Command,
          s1.timeline.timeline = T ++ cs ∧ s1.timeline.index = T.length + cs.length) := by
  cases fs with
  | nil =>
    have hs : s1 = s0 := by
      simp [commands.commitAll] at hc
      exact hc.symm
    subst hs
    exact ⟨[], commands.CommitChain.nil _, rfl, Or.inl ⟨rfl, rfl⟩⟩
  | cons f fs' =>
    unfold commands.commitAll at hc
    have hcommit : ({ exec := f, trackable := true, prior_state := none } :
          commands.Command).Commit s0.diagram =
        ({ exec := f, trackable := true, prior_state := some s0.diagram }, f s0.diagram) := rfl
    have hca : commands.commitAndAdd s0 { exec := f, trackable := true, prior_state := none } =
        (match f s0.diagram with
         | Except.ok d2 => (Except.ok (), ⟨d2, s0.timeline.Add { exec := f, trackable := true, prior_state := some s0.diagram }⟩)
         | Except.error e => (Except.error e, s0)) := by
      unfold commands.commitAndAdd
      rw [hcommit]
      cases f s0.diagram <;> rfl
    rw [hca] at hc
    cases he : f s0.diagram with
    | error e =>
      rw [he] at hc
      simp at hc
    | ok d2 =>
      rw [he] at hc
      replace hc : commands.commitAll fs'
          ⟨d2, s0.timeline.Add { exec := f, trackable := true, prior_state := some s0.diagram }⟩ =
          some s1 := hc
      have hadd : s0.timeline.Add { exec := f, trackable := true, prior_state := some s0.diagram } =
          ⟨s0.timeline.timeline.take s0.timeline.index ++
              [{ exec := f, trackable := true, prior_state := some s0.diagram }],
            s0.timeline.index + 1⟩ := by
        simp [commands.Timeline.Add]
      rw [hadd] at hc
      have hinv2 : (⟨d2, ⟨s0.timeline.timeline.take s0.timeline.index ++
            [{ exec := f, trackable := true, prior_state := some s0.diagram }],
            s0.timeline.index + 1⟩⟩ : commands.CliState).timeline.index =
          (⟨d2, ⟨s0.timeline.timeline.take s0.timeline.index ++
            [{ exec := f, trackable := true, prior_state := some s0.diagram }],
            s0.timeline.index + 1⟩⟩ : commands.CliState).timeline.timeline.length := by
        simp [List.length_take]
        omega
      obtain ⟨cs', hch, hlen, htl, hix⟩ := commitAll_chain_eq fs' _ s1 hinv2 hc
      refine ⟨{ exec := f, trackable := true, prior_state := some s0.diagram } :: cs',
        commands.CommitChain.cons _ _ d2 _ cs' rfl rfl he hch, by simp [hlen],
        Or.inr ⟨s0.timeline.timeline.take s0.timeline.index, ?_, ?_⟩⟩
      · rw [htl]
        simp
      · rw [hix]
        simp [List.length_take]
        omega

/-- C2: for every CLI state whose cursor lies within its history, and every
sequence of trackable commands each successfully Committed in order through
the CLI loop, invoking the undo command once per commit succeeds (newest
first, each Undo restoring the snapshot Commit stored) and lands back on the
original diagram, and then invoking the redo command the same number of
times succeeds (oldest first, each re-running Execute) and reproduces the
diagram reached after the original commits. -/
theorem c2_undo_redo_roundtrip
    (s0 s1 : commands.CliState)
    (fs : List (model.Diagram → Except String model.Diagram))
    (hinv : s0.timeline.index ≤ s0.timeline.timeline.length)
    (hc : commands.commitAll fs s0 = some s1) :
    ∃ s2 s3 : commands.CliState,
      commands.undoAll fs.length s1 = some s2 ∧ s2.diagram = s0.diagram ∧
      commands.redoAll fs.length s2 = some s3 ∧ s3.diagram = s1.diagram := by
  obtain ⟨cs, hch, hlen, hrest⟩ := commitAll_chain_le fs s0 s1 hinv hc
  rcases hrest with ⟨hnil, hs⟩ | ⟨T, htl, hix⟩
  · subst hs
    subst hnil
    rw [← hlen]
    exact ⟨s1, s1, rfl, rfl, rfl, rfl⟩
  · rw [← hlen]
    obtain ⟨d, tl⟩ := s1
    obtain ⟨tt, ti⟩ := tl
    dsimp only at htl hix hch
    subst htl
    subst hix
    exact ⟨⟨s0.diagram, ⟨T ++ cs, T.length⟩⟩, ⟨d, ⟨T ++ cs, T.length + cs.length⟩⟩,
      undoAll_chain cs T s0.diagram d hch, rfl,
      redoAll_chain cs T s0.diagram d hch, rfl⟩

/-- C2 witness: one AddClass "a" command committed on the empty state, then
one undo and one redo. -/
theorem c2_witness_one_commit :
    ∃ s2 s3 : commands.CliState,
      commands.undoAll 1 (commands.CliState.mk
        (model.Diagram.mk
          [{ name := "a", fields := [], methods := [], position := { x := 0, y := 0 } }] [])
        (commands.Timeline.mk
          [{ exec := commands.liftMut (fun d => d.AddClass "a"), trackable := true,
             prior_state := some (model.Diagram.mk [] []) }] 1)) = some s2 ∧
      s2.diagram = model.Diagram.mk [] [] ∧
      commands.redoAll 1 s2 = some s3 ∧
      s3.diagram = model.Diagram.mk
        [{ name := "a", fields := [], methods := [], position := { x := 0, y := 0 } }] [] :=
  c2_undo_redo_roundtrip
    (commands.CliState.mk (model.Diagram.mk [] []) (commands.Timeline.mk [] 0))
    (commands.CliState.mk
      (model.Diagram.mk
        [{ name := "a", fields := [], methods := [], position := { x := 0, y := 0 } }] [])
      (commands.Timeline.mk
        [{ exec := commands.liftMut (fun d => d.AddClass "a"), trackable := true,
           prior_state := some (model.Diagram.mk [] []) }] 1))
    [commands.liftMut (fun d => d.AddClass "a")]
    (by decide) rfl

/-! Stepping and embedding lemmas for the character-run loops and the
grammar validator, used to settle the compositional bracket-list claim. -/

theorem cw_stop_none (p : Char → Bool) (t : List Char) (s : Nat)
    (h : t[s]? = none) : consumeWhile p t s = s := by
  unfold consumeWhile
  cases hk : t.length - s with
  | zero => rfl
  | succ k =>
    unfold consumeWhileAux
    rw [h]

theorem cw_stop_fail (p : Char → Bool) (t : List Char) (s : Nat) (c : Char)
    (hc : t[s]? = some c) (hp : p c = false) : consumeWhile p t s = s := by
  unfold consumeWhile
  cases hk : t.length - s with
  | zero => rfl
  | succ k =>
    simp only [consumeWhileAux, hc, hp]
    simp

theorem cw_step (p : Char → Bool) (t : List Char) (s : Nat) (c : Char)
    (hc : t[s]? = some c) (hp : p c = true) :
    consumeWhile p t s = consumeWhile p t (s + 1) := by
  have hlt : s < t.length := by
    by_contra hge
    rw [List.getElem?_eq_none (Nat.le_of_not_lt hge)] at hc
    exact absurd hc (by simp)
  have hk : t.length - s = (t.length - (s + 1)) + 1 := by
    omega
  unfold consumeWhile
  rw [hk]
  simp only [consumeWhileAux, hc, hp]
  simp

theorem cw_le (p : Char → Bool) (t : List Char) :
    ∀ (k s : Nat), s ≤ t.length → consumeWhileAux p t k s ≤ t.length := by
  intro k
  induction k with
  | zero => intro s hs; exact hs
  | succ k ih =>
    intro s hs
    unfold consumeWhileAux
    cases hc : t[s]? with
    | none => exact hs
    | some c =>
      cases hp : p c with
      | false =>
        simp [hp]
        exact hs
      | true =>
        simp [hp]
        have hlt : s < t.length := by
          by_contra hge
          rw [List.getElem?_eq_none (Nat.le_of_not_lt hge)] at hc
          exact absurd hc (by simp)
        exact ih (s + 1) hlt

theorem consumeWhile_le (p : Char → Bool) (t : List Char) (s : Nat) (hs : s ≤ t.length) :
    consumeWhile p t s ≤ t.length :=
  cw_le p t (t.length - s) s hs

theorem getElem?_embed (pre t post : List Char) (i : Nat) (h : i < t.length) :
    (pre ++ t ++ post)[pre.length + i]? = t[i]? := by
  rw [List.append_assoc, List.getElem?_append_right (Nat.le_add_right pre.length i),
    Nat.add_sub_cancel_left]
  rw [List.getElem?_append_left h]

theorem getElem?_embed_end (pre t post : List Char) :
    (pre ++ t ++ post)[pre.length + t.length]? = post[0]? := by
  rw [List.append_assoc, List.getElem?_append_right (Nat.le_add_right pre.length t.length),
    Nat.add_sub_cancel_left]
  rw [List.getElem?_append_right (Nat.le_refl t.length), Nat.sub_self]

theorem consumeWhile_embed (p : Char → Bool) (t pre post : List Char) :
    ∀ (k s : Nat), t.length - s = k → s ≤ t.length →
    (consumeWhile p t s = t.length → ∀ c, post[0]? = some c → p c = false) →
    consumeWhile p (pre ++ t ++ post) (pre.length + s) = pre.length + consumeWhile p t s := by
  intro k
  induction k with
  | zero =>
    intro s hk hs hsafe
    have hse : s = t.length := by omega
    have hnone : t[s]? = none := List.getElem?_eq_none hse.ge
    rw [cw_stop_none p t s hnone]
    have hbig : (pre ++ t ++ post)[pre.length + s]? = post[0]? := by
      rw [hse]
      exact getElem?_embed_end pre t post
    cases hp0 : post[0]? with
    | none => rw [cw_stop_none p _ _ (hbig.trans hp0)]
    | some c =>
      have hpc : p c = false := hsafe ((cw_stop_none p t s hnone).trans hse) c hp0
      rw [cw_stop_fail p _ _ c (hbig.trans hp0) hpc]
  | succ k ih =>
    intro s hk hs hsafe
    have hlt : s < t.length := by omega
    have hc : t[s]? = some t[s] := List.getElem?_eq_getElem hlt
    have hbig : (pre ++ t ++ post)[pre.length + s]? = some t[s] :=
      (getElem?_embed pre t post s hlt).trans hc
    cases hp : p t[s] with
    | false =>
      rw [cw_stop_fail p t s _ hc hp, cw_stop_fail p _ _ _ hbig hp]
    | true =>
      rw [cw_step p t s _ hc hp]
      have hstep : consumeWhile p (pre ++ t ++ post) (pre.length + s) =
          consumeWhile p (pre ++ t ++ post) (pre.length + s + 1) :=
        cw_step p _ _ _ hbig hp
      rw [hstep, Nat.add_assoc]
      refine ih (s + 1) (by omega) hlt ?_
      intro hcw c hp0
      exact hsafe (by rw [cw_step p t s _ hc hp]; exact hcw) c hp0

theorem validIdentifier_le (t : List Char) (s id : Nat)
    (h : ValidIdentifier t s = Except.ok id) :
    s < t.length ∧ id ≤ t.length := by
  unfold ValidIdentifier at h
  by_cases hse : s = t.length
  · rw [if_pos hse] at h
    simp at h
  · rw [if_neg hse] at h
    cases hc : t[s]? with
    | none =>
      rw [hc] at h
      simp at h
    | some c =>
      rw [hc] at h
      have hlt : s < t.length := by
        by_contra hge
        rw [List.getElem?_eq_none (Nat.le_of_not_lt hge)] at hc
        exact absurd hc (by simp)
      refine ⟨hlt, ?_⟩
      cases ha : Alpha c with
      | false => simp [ha] at h
      | true =>
        simp [ha] at h
        rw [← h]
        exact consumeWhile_le AlNum t (s + 1) hlt

theorem validIdentifier_some_alpha (t : List Char) (s : Nat) (c : Char)
    (hne : ¬ s = t.length) (hc : t[s]? = some c) (ha : Alpha c = true) :
    ValidIdentifier t s = Except.ok (consumeWhile AlNum t (s + 1)) := by
  unfold ValidIdentifier
  rw [if_neg hne, hc]
  simp [ha]

theorem validIdentifier_embed (t pre post : List Char) (s id : Nat)
    (h : ValidIdentifier t s = Except.ok id)
    (hsafe : id = t.length → ∀ c, post[0]? = some c → AlNum c = false) :
    ValidIdentifier (pre ++ t ++ post) (pre.length + s) = Except.ok (pre.length + id) := by
  obtain ⟨hlt, hle⟩ := validIdentifier_le t s id h
  have hblen : (pre ++ t ++ post).length = pre.length + t.length + post.length := by
    rw [List.length_append, List.length_append]
  unfold ValidIdentifier at h
  rw [if_neg (by omega : ¬ s = t.length)] at h
  cases hc : t[s]? with
  | none =>
    rw [hc] at h
    simp at h
  | some c =>
    rw [hc] at h
    cases ha : Alpha c with
    | false => simp [ha] at h
    | true =>
      replace h : consumeWhile AlNum t (s + 1) = id := by
        simpa [ha] using h
      rw [validIdentifier_some_alpha (pre ++ t ++ post) (pre.length + s) c
        (by omega) ((getElem?_embed pre t post s hlt).trans hc) ha]
      rw [Nat.add_assoc]
      rw [consumeWhile_embed AlNum t pre post (t.length - (s + 1)) (s + 1) rfl hlt ?_]
      · rw [h]
      · rw [h]
        exact hsafe

/-! One-step equations for the three mutually recursive validator
functions, at positive fuel and under explicit branch conditions. -/

theorem VT_err_id (g : Nat) (t : List Char) (s : Nat) (e : String)
    (h : ValidIdentifier t s = Except.error e) :
    ValidTypeF (g + 1) t s = Except.error e := by
  unfold ValidTypeF
  rw [h]

theorem VT_id_end (g : Nat) (t : List Char) (s id : Nat)
    (h : ValidIdentifier t s = Except.ok id) (hend : id = t.length) :
    ValidTypeF (g + 1) t s = Except.ok id := by
  unfold ValidTypeF
  rw [h]
  simp [hend]

theorem VT_lbrack (g : Nat) (t : List Char) (s id : Nat)
    (h : ValidIdentifier t s = Except.ok id) (hend : ¬ id = t.length)
    (hc : t[id]? = some '[') :
    ValidTypeF (g + 1) t s = bracketListF g t ']' id := by
  unfold ValidTypeF
  rw [h]
  simp [hend, hc]

theorem VT_lparen (g : Nat) (t : List Char) (s id : Nat)
    (h : ValidIdentifier t s = Except.ok id) (hend : ¬ id = t.length)
    (hc : t[id]? = some '(') :
    ValidTypeF (g + 1) t s = bracketListF g t ')' id := by
  unfold ValidTypeF
  rw [h]
  simp [hend, hc]

theorem VT_langle (g : Nat) (t : List Char) (s id : Nat)
    (h : ValidIdentifier t s = Except.ok id) (hend : ¬ id = t.length)
    (hc : t[id]? = some '<') :
    ValidTypeF (g + 1) t s = bracketListF g t '>' id := by
  unfold ValidTypeF
  rw [h]
  simp [hend, hc]

theorem VT_star (g : Nat) (t : List Char) (s id : Nat)
    (h : ValidIdentifier t s = Except.ok id) (hend : ¬ id = t.length)
    (hc : t[id]? = some '*') :
    ValidTypeF (g + 1) t s = Except.ok (consumeWhile isStar t (id + 1)) := by
  unfold ValidTypeF
  rw [h]
  simp [hend, hc]

theorem VT_other (g : Nat) (t : List Char) (s id : Nat) (c : Char)
    (h : ValidIdentifier t s = Except.ok id) (hend : ¬ id = t.length)
    (hc : t[id]? = some c)
    (h1 : ¬ c = '[') (h2 : ¬ c = '(') (h3 : ¬ c = '<') (h4 : ¬ c = '*') :
    ValidTypeF (g + 1) t s = Except.ok id := by
  unfold ValidTypeF
  rw [h]
  simp [hend, hc]
  split
  · simp_all
  · simp_all
  · simp_all
  · simp_all
  · rfl

theorem BL_end (g : Nat) (t : List Char) (c : Char) (s : Nat)
    (h : s + 1 = t.length) :
    bracketListF (g + 1) t c s = Except.error "Expected more after type specifier" := by
  unfold bracketListF
  rw [if_pos h]

theorem BL_go (g : Nat) (t : List Char) (c : Char) (s : Nat)
    (h : ¬ s + 1 = t.length) :
    bracketListF (g + 1) t c s = typeListF g t c (s + 1) true := by
  unfold bracketListF
  rw [if_neg h]

theorem TL_none (g : Nat) (t : List Char) (c : Char) (s : Nat) (first : Bool)
    (h : t[s]? = none) :
    typeListF (g + 1) t c s first = Except.error "Unexpected end to type list" := by
  unfold typeListF
  rw [h]

theorem TL_close (g : Nat) (t : List Char) (c : Char) (s : Nat) (first : Bool)
    (h : t[s]? = some c) :
    typeListF (g + 1) t c s first = Except.ok (consumeWhile isStar t (s + 1)) := by
  unfold typeListF
  rw [h]
  simp

theorem TL_first_err (g : Nat) (t : List Char) (c : Char) (s : Nat) (ch : Char) (e : String)
    (h : t[s]? = some ch) (hne : ¬ ch = c) (hv : ValidTypeF g t s = Except.error e) :
    typeListF (g + 1) t c s true = Except.error e := by
  unfold typeListF
  rw [h]
  simp [hne, hv]

theorem TL_first_ok_end (g : Nat) (t : List Char) (c : Char) (s : Nat) (ch : Char) (e : Nat)
    (h : t[s]? = some ch) (hne : ¬ ch = c) (hv : ValidTypeF g t s = Except.ok e)
    (hend : e = t.length) :
    typeListF (g + 1) t c s true = Except.error "Unexpected end to type list" := by
  unfold typeListF
  rw [h]
  simp [hne, hv, hend]

theorem TL_first_ok_go (g : Nat) (t : List Char) (c : Char) (s : Nat) (ch : Char) (e : Nat)
    (h : t[s]? = some ch) (hne : ¬ ch = c) (hv : ValidTypeF g t s = Except.ok e)
    (hend : ¬ e = t.length) :
    typeListF (g + 1) t c s true = typeListF g t c e false := by
  unfold typeListF
  rw [h]
  simp [hne, hv, hend]
  rw [typeListF.eq_def]

theorem TL_comma_err (g : Nat) (t : List Char) (c : Char) (s : Nat) (e : String)
    (h : t[s]? = some ',') (hne : ¬ (',' : Char) = c)
    (hv : ValidTypeF g t (s + 1) = Except.error e) :
    typeListF (g + 1) t c s false = Except.error e := by
  unfold typeListF
  rw [h]
  simp [hne, hv]

theorem TL_comma_ok_end (g : Nat) (t : List Char) (c : Char) (s : Nat) (e : Nat)
    (h : t[s]? = some ',') (hne : ¬ (',' : Char) = c)
    (hv : ValidTypeF g t (s + 1) = Except.ok e) (hend : e = t.length) :
    typeListF (g + 1) t c s false = Except.error "Unexpected end to type list" := by
  unfold typeListF
  rw [h]
  simp [hne, hv, hend]

theorem TL_comma_ok_go (g : Nat) (t : List Char) (c : Char) (s : Nat) (e : Nat)
    (h : t[s]? = some ',') (hne : ¬ (',' : Char) = c)
    (hv : ValidTypeF g t (s + 1) = Except.ok e) (hend : ¬ e = t.length) :
    typeListF (g + 1) t c s false = typeListF g t c e false := by
  unfold typeListF
  rw [h]
  simp [hne, hv, hend]
  rw [typeListF.eq_def]

theorem TL_badsep (g : Nat) (t : List Char) (c : Char) (s : Nat) (ch : Char)
    (h : t[s]? = some ch) (hne : ¬ ch = c) (hnc : ¬ ch = ',') :
    typeListF (g + 1) t c s false =
      Except.error ("Expected ',' but got '" ++ toString ch ++ "' at index " ++ toString s) := by
  unfold typeListF
  rw [h]
  simp [hne, hnc]

theorem getElem?_some_lt {t : List Char} {s : Nat} {c : Char}
    (hc : t[s]? = some c) : s < t.length := by
  by_contra hge
  rw [List.getElem?_eq_none (Nat.le_of_not_lt hge)] at hc
  exact absurd hc (by simp)

theorem parserF_le : ∀ g : Nat,
    (∀ t s e, ValidTypeF g t s = Except.ok e → e ≤ t.length) ∧
    (∀ t c s e, bracketListF g t c s = Except.ok e → e ≤ t.length) ∧
    (∀ t c s first e, typeListF g t c s first = Except.ok e → e ≤ t.length) := by
  intro g
  induction g with
  | zero =>
    refine ⟨?_, ?_, ?_⟩
    · intro t s e h
      simp [ValidTypeF] at h
    · intro t c s e h
      simp [bracketListF] at h
    · intro t c s first e h
      simp [typeListF] at h
  | succ g ih =>
    refine ⟨?_, ?_, ?_⟩
    · intro t s e h
      cases hvi : ValidIdentifier t s with
      | error msg =>
        rw [VT_err_id g t s msg hvi] at h
        simp at h
      | ok id =>
        obtain ⟨hslt, hidle⟩ := validIdentifier_le t s id hvi
        by_cases hend : id = t.length
        · rw [VT_id_end g t s id hvi hend] at h
          simp at h
          omega
        · cases hc : t[id]? with
          | none =>
            have hlt : id < t.length := by omega
            rw [List.getElem?_eq_getElem hlt] at hc
            exact absurd hc (by simp)
          | some ch =>
            by_cases h1 : ch = '['
            · subst h1
              rw [VT_lbrack g t s id hvi hend hc] at h
              exact ih.2.1 t ']' id e h
            · by_cases h2 : ch = '('
              · subst h2
                rw [VT_lparen g t s id hvi hend hc] at h
                exact ih.2.1 t ')' id e h
              · by_cases h3 : ch = '<'
                · subst h3
                  rw [VT_langle g t s id hvi hend hc] at h
                  exact ih.2.1 t '>' id e h
                · by_cases h4 : ch = '*'
                  · subst h4
                    rw [VT_star g t s id hvi hend hc] at h
                    simp at h
                    have hcw := consumeWhile_le isStar t (id + 1) (by omega)
                    omega
                  · rw [VT_other g t s id ch hvi hend hc h1 h2 h3 h4] at h
                    simp at h
                    omega
    · intro t c s e h
      by_cases hend : s + 1 = t.length
      · rw [BL_end g t c s hend] at h
        simp at h
      · rw [BL_go g t c s hend] at h
        exact ih.2.2 t c (s + 1) true e h
    · intro t c s first e h
      cases hc : t[s]? with
      | none =>
        rw [TL_none g t c s first hc] at h
        simp at h
      | some ch =>
        have hslt : s < t.length := getElem?_some_lt hc
        by_cases hcc : ch = c
        · subst hcc
          rw [TL_close g t ch s first hc] at h
          simp at h
          have hcw := consumeWhile_le isStar t (s + 1) hslt
          omega
        · cases first with
          | true =>
            cases hv : ValidTypeF g t s with
            | error msg =>
              rw [TL_first_err g t c s ch msg hc hcc hv] at h
              simp at h
            | ok e1 =>
              by_cases he1 : e1 = t.length
              · rw [TL_first_ok_end g t c s ch e1 hc hcc hv he1] at h
                simp at h
              · rw [TL_first_ok_go g t c s ch e1 hc hcc hv he1] at h
                exact ih.2.2 t c e1 false e h
          | false =>
            by_cases hcm : ch = ','
            · subst hcm
              cases hv : ValidTypeF g t (s + 1) with
              | error msg =>
                rw [TL_comma_err g t c s msg hc hcc hv] at h
                simp at h
              | ok e1 =>
                by_cases he1 : e1 = t.length
                · rw [TL_comma_ok_end g t c s e1 hc hcc hv he1] at h
                  simp at h
                · rw [TL_comma_ok_go g t c s e1 hc hcc hv he1] at h
                  exact ih.2.2 t c e1 false e h
            · rw [TL_badsep g t c s ch hc hcc hcm] at h
              simp at h

theorem typeListF_ok_start_lt (g : Nat) (t : List Char) (c : Char) (s : Nat)
    (first : Bool) (e : Nat) (h : typeListF g t c s first = Except.ok e) :
    s < t.length := by
  cases g with
  | zero => simp [typeListF] at h
  | succ g2 =>
    cases hc : t[s]? with
    | none =>
      rw [TL_none g2 t c s first hc] at h
      simp at h
    | some ch => exact getElem?_some_lt hc

theorem parserF_mono : ∀ g : Nat,
    (∀ t s e, ValidTypeF g t s = Except.ok e →
      ∀ f, g ≤ f → ValidTypeF f t s = Except.ok e) ∧
    (∀ t c s e, bracketListF g t c s = Except.ok e →
      ∀ f, g ≤ f → bracketListF f t c s = Except.ok e) ∧
    (∀ t c s first e, typeListF g t c s first = Except.ok e →
      ∀ f, g ≤ f → typeListF f t c s first = Except.ok e) := by
  intro g
  induction g with
  | zero =>
    refine ⟨?_, ?_, ?_⟩
    · intro t s e h
      simp [ValidTypeF] at h
    · intro t c s e h
      simp [bracketListF] at h
    · intro t c s first e h
      simp [typeListF] at h
  | succ g ih =>
    refine ⟨?_, ?_, ?_⟩
    · intro t s e h f hf
      cases f with
      | zero => omega
      | succ f2 =>
        have hgf : g ≤ f2 := by omega
        cases hvi : ValidIdentifier t s with
        | error msg =>
          rw [VT_err_id g t s msg hvi] at h
          simp at h
        | ok id =>
          obtain ⟨hslt, hidle⟩ := validIdentifier_le t s id hvi
          by_cases hend : id = t.length
          · rw [VT_id_end g t s id hvi hend] at h
            rw [VT_id_end f2 t s id hvi hend]
            exact h
          · cases hc : t[id]? with
            | none =>
              have hlt : id < t.length := by omega
              rw [List.getElem?_eq_getElem hlt] at hc
              exact absurd hc (by simp)
            | some ch =>
              by_cases h1 : ch = '['
              · subst h1
                rw [VT_lbrack g t s id hvi hend hc] at h
                rw [VT_lbrack f2 t s id hvi hend hc]
                exact ih.2.1 t ']' id e h f2 hgf
              · by_cases h2 : ch = '('
                · subst h2
                  rw [VT_lparen g t s id hvi hend hc] at h
                  rw [VT_lparen f2 t s id hvi hend hc]
                  exact ih.2.1 t ')' id e h f2 hgf
                · by_cases h3 : ch = '<'
                  · subst h3
                    rw [VT_langle g t s id hvi hend hc] at h
                    rw [VT_langle f2 t s id hvi hend hc]
                    exact ih.2.1 t '>' id e h f2 hgf
                  · by_cases h4 : ch = '*'
                    · subst h4
                      rw [VT_star g t s id hvi hend hc] at h
                      rw [VT_star f2 t s id hvi hend hc]
                      exact h
                    · rw [VT_other g t s id ch hvi hend hc h1 h2 h3 h4] at h
                      rw [VT_other f2 t s id ch hvi hend hc h1 h2 h3 h4]
                      exact h
    · intro t c s e h f hf
      cases f with
      | zero => omega
      | succ f2 =>
        have hgf : g ≤ f2 := by omega
        by_cases hend : s + 1 = t.length
        · rw [BL_end g t c s hend] at h
          simp at h
        · rw [BL_go g t c s hend] at h
          rw [BL_go f2 t c s hend]
          exact ih.2.2 t c (s + 1) true e h f2 hgf
    · intro t c s first e h f hf
      cases f with
      | zero => omega
      | succ f2 =>
        have hgf : g ≤ f2 := by omega
        cases hc : t[s]? with
        | none =>
          rw [TL_none g t c s first hc] at h
          simp at h
        | some ch =>
          by_cases hcc : ch = c
          · subst hcc
            rw [TL_close g t ch s first hc] at h
            rw [TL_close f2 t ch s first hc]
            exact h
          · cases first with
            | true =>
              cases hv : ValidTypeF g t s with
              | error msg =>
                rw [TL_first_err g t c s ch msg hc hcc hv] at h
                simp at h
              | ok e1 =>
                by_cases he1 : e1 = t.length
                · rw [TL_first_ok_end g t c s ch e1 hc hcc hv he1] at h
                  simp at h
                · rw [TL_first_ok_go g t c s ch e1 hc hcc hv he1] at h
                  rw [TL_first_ok_go f2 t c s ch e1 hc hcc (ih.1 t s e1 hv f2 hgf) he1]
                  exact ih.2.2 t c e1 false e h f2 hgf
            | false =>
              by_cases hcm : ch = ','
              · subst hcm
                cases hv : ValidTypeF g t (s + 1) with
                | error msg =>
                  rw [TL_comma_err g t c s msg hc hcc hv] at h
                  simp at h
                | ok e1 =>
                  by_cases he1 : e1 = t.length
                  · rw [TL_comma_ok_end g t c s e1 hc hcc hv he1] at h
                    simp at h
                  · rw [TL_comma_ok_go g t c s e1 hc hcc hv he1] at h
                    rw [TL_comma_ok_go f2 t c s e1 hc hcc (ih.1 t (s + 1) e1 hv f2 hgf) he1]
                    exact ih.2.2 t c e1 false e h f2 hgf
              · rw [TL_badsep g t c s ch hc hcc hcm] at h
                simp at h

theorem safeChar_spec (c : Char) (h : safeChar c = true) :
    AlNum c = false ∧ isStar c = false ∧ ¬ c = '[' ∧ ¬ c = '(' ∧ ¬ c = '<' ∧ ¬ c = '*' := by
  simp [safeChar] at h
  obtain ⟨⟨⟨⟨h1, h2⟩, h3⟩, h4⟩, h5⟩ := h
  exact ⟨h1, by simp [isStar, h2], h3, h4, h5, h2⟩

theorem safeHead_some (post : List Char) (c : Char) (h : safeHead post = true)
    (hc : post[0]? = some c) : safeChar c = true := by
  cases post with
  | nil => simp at hc
  | cons a rest =>
    simp at hc
    subst hc
    exact h

theorem parserF_embed : ∀ g : Nat,
    (∀ t s e, ValidTypeF g t s = Except.ok e →
      ∀ pre post : List Char, (e = t.length → safeHead post = true) →
      ValidTypeF g (pre ++ t ++ post) (pre.length + s) = Except.ok (pre.length + e)) ∧
    (∀ t c s e, bracketListF g t c s = Except.ok e →
      ∀ pre post : List Char, (e = t.length → safeHead post = true) →
      bracketListF g (pre ++ t ++ post) c (pre.length + s) = Except.ok (pre.length + e)) ∧
    (∀ t c s first e, typeListF g t c s first = Except.ok e →
      ∀ pre post : List Char, (e = t.length → safeHead post = true) →
      typeListF g (pre ++ t ++ post) c (pre.length + s) first = Except.ok (pre.length + e)) := by
  intro g
  induction g with
  | zero =>
    refine ⟨?_, ?_, ?_⟩
    · intro t s e h
      simp [ValidTypeF] at h
    · intro t c s e h
      simp [bracketListF] at h
    · intro t c s first e h
      simp [typeListF] at h
  | succ g ih =>
    refine ⟨?_, ?_, ?_⟩
    · intro t s e h pre post hsafe
      have hblen : (pre ++ t ++ post).length = pre.length + t.length + post.length := by
        rw [List.length_append, List.length_append]
      cases hvi : ValidIdentifier t s with
      | error msg =>
        rw [VT_err_id g t s msg hvi] at h
        simp at h
      | ok id =>
        obtain ⟨hslt, hidle⟩ := validIdentifier_le t s id hvi
        by_cases hend : id = t.length
        · rw [VT_id_end g t s id hvi hend] at h
          simp at h
          subst h
          have hvembed := validIdentifier_embed t pre post s id hvi
            (fun _ c1 hc1 => (safeChar_spec c1 (safeHead_some post c1 (hsafe hend) hc1)).1)
          cases post with
          | nil =>
            rw [VT_id_end g (pre ++ t ++ []) (pre.length + s) (pre.length + id) hvembed
              (by simp [hend])]
          | cons c0 rest =>
            have hsc := safeHead_some (c0 :: rest) c0 (hsafe hend) (by simp)
            obtain ⟨ha1, ha2, ha3, ha4, ha5, ha6⟩ := safeChar_spec c0 hsc
            have hlc : (c0 :: rest).length = rest.length + 1 := rfl
            have hgetend : (pre ++ t ++ (c0 :: rest))[pre.length + id]? = some c0 := by
              rw [hend]
              rw [getElem?_embed_end]
              simp
            rw [VT_other g (pre ++ t ++ (c0 :: rest)) (pre.length + s) (pre.length + id) c0
              hvembed (by omega) hgetend ha3 ha4 ha5 ha6]
        · have hidlt : id < t.length := by omega
          have hvembed := validIdentifier_embed t pre post s id hvi
            (fun hh => absurd hh hend)
          cases hc : t[id]? with
          | none =>
            rw [List.getElem?_eq_getElem hidlt] at hc
            exact absurd hc (by simp)
          | some ch =>
            have hbigc : (pre ++ t ++ post)[pre.length + id]? = some ch :=
              (getElem?_embed pre t post id hidlt).trans hc
            by_cases h1 : ch = '['
            · subst h1
              rw [VT_lbrack g t s id hvi hend hc] at h
              rw [VT_lbrack g (pre ++ t ++ post) (pre.length + s) (pre.length + id) hvembed
                (by omega) hbigc]
              exact (ih.2.1) t ']' id e h pre post hsafe
            · by_cases h2 : ch = '('
              · subst h2
                rw [VT_lparen g t s id hvi hend hc] at h
                rw [VT_lparen g (pre ++ t ++ post) (pre.length + s) (pre.length + id) hvembed
                  (by omega) hbigc]
                exact (ih.2.1) t ')' id e h pre post hsafe
              · by_cases h3 : ch = '<'
                · subst h3
                  rw [VT_langle g t s id hvi hend hc] at h
                  rw [VT_langle g (pre ++ t ++ post) (pre.length + s) (pre.length + id) hvembed
                    (by omega) hbigc]
                  exact (ih.2.1) t '>' id e h pre post hsafe
                · by_cases h4 : ch = '*'
                  · subst h4
                    rw [VT_star g t s id hvi hend hc] at h
                    simp at h
                    rw [VT_star g (pre ++ t ++ post) (pre.length + s) (pre.length + id) hvembed
                      (by omega) hbigc]
                    rw [Nat.add_assoc]
                    rw [consumeWhile_embed isStar t pre post (t.length - (id + 1)) (id + 1) rfl
                      hidlt ?_]
                    · rw [h]
                    · intro hcw c0 hc0
                      have hel : e = t.length := by
                        rw [← h]
                        exact hcw
                      exact (safeChar_spec c0 (safeHead_some post c0 (hsafe hel) hc0)).2.1
                  · rw [VT_other g t s id ch hvi hend hc h1 h2 h3 h4] at h
                    simp at h
                    subst h
                    rw [VT_other g (pre ++ t ++ post) (pre.length + s) (pre.length + id) ch
                      hvembed (by omega) hbigc h1 h2 h3 h4]
    · intro t c s e h pre post hsafe
      have hblen : (pre ++ t ++ post).length = pre.length + t.length + post.length := by
        rw [List.length_append, List.length_append]
      by_cases hend : s + 1 = t.length
      · rw [BL_end g t c s hend] at h
        simp at h
      · rw [BL_go g t c s hend] at h
        have hs1lt : s + 1 < t.length := typeListF_ok_start_lt g t c (s + 1) true e h
        rw [BL_go g (pre ++ t ++ post) c (pre.length + s) (by omega)]
        rw [Nat.add_assoc]
        exact (ih.2.2) t c (s + 1) true e h pre post hsafe
    · intro t c s first e h pre post hsafe
      have hblen : (pre ++ t ++ post).length = pre.length + t.length + post.length := by
        rw [List.length_append, List.length_append]
      cases hc : t[s]? with
      | none =>
        rw [TL_none g t c s first hc] at h
        simp at h
      | some ch =>
        have hslt : s < t.length := getElem?_some_lt hc
        have hbigc : (pre ++ t ++ post)[pre.length + s]? = some ch :=
          (getElem?_embed pre t post s hslt).trans hc
        by_cases hcc : ch = c
        · subst hcc
          rw [TL_close g t ch s first hc] at h
          simp at h
          rw [TL_close g (pre ++ t ++ post) ch (pre.length + s) first hbigc]
          rw [Nat.add_assoc]
          rw [consumeWhile_embed isStar t pre post (t.length - (s + 1)) (s + 1) rfl hslt ?_]
          · rw [h]
          · intro hcw c0 hc0
            have hel : e = t.length := by
              rw [← h]
              exact hcw
            exact (safeChar_spec c0 (safeHead_some post c0 (hsafe hel) hc0)).2.1
        · cases first with
          | true =>
            cases hv : ValidTypeF g t s with
            | error msg =>
              rw [TL_first_err g t c s ch msg hc hcc hv] at h
              simp at h
            | ok e1 =>
              by_cases he1 : e1 = t.length
              · rw [TL_first_ok_end g t c s ch e1 hc hcc hv he1] at h
                simp at h
              · rw [TL_first_ok_go g t c s ch e1 hc hcc hv he1] at h
                have he1le : e1 ≤ t.length := (parserF_le g).1 t s e1 hv
                have hvbig : ValidTypeF g (pre ++ t ++ post) (pre.length + s) =
                    Except.ok (pre.length + e1) :=
                  ih.1 t s e1 hv pre post (fun hh => absurd hh he1)
                rw [TL_first_ok_go g (pre ++ t ++ post) c (pre.length + s) ch (pre.length + e1)
                  hbigc hcc hvbig (by omega)]
                exact (ih.2.2) t c e1 false e h pre post hsafe
          | false =>
            by_cases hcm : ch = ','
            · subst hcm
              cases hv : ValidTypeF g t (s + 1) with
              | error msg =>
                rw [TL_comma_err g t c s msg hc hcc hv] at h
                simp at h
              | ok e1 =>
                by_cases he1 : e1 = t.length
                · rw [TL_comma_ok_end g t c s e1 hc hcc hv he1] at h
                  simp at h
                · rw [TL_comma_ok_go g t c s e1 hc hcc hv he1] at h
                  have he1le : e1 ≤ t.length := (parserF_le g).1 t (s + 1) e1 hv
                  have hvbig : ValidTypeF g (pre ++ t ++ post) (pre.length + s + 1) =
                      Except.ok (pre.length + e1) := by
                    rw [Nat.add_assoc]
                    exact ih.1 t (s + 1) e1 hv pre post (fun hh => absurd hh he1)
                  rw [TL_comma_ok_go g (pre ++ t ++ post) c (pre.length + s) (pre.length + e1)
                    hbigc hcc hvbig (by omega)]
                  exact (ih.2.2) t c e1 false e h pre post hsafe
            · rw [TL_badsep g t c s ch hc hcc hcm] at h
              simp at h

theorem validIdentifier_ok_char (t : List Char) (s id : Nat)
    (h : ValidIdentifier t s = Except.ok id) :
    ∃ c, t[s]? = some c ∧ Alpha c = true := by
  unfold ValidIdentifier at h
  by_cases hse : s = t.length
  · rw [if_pos hse] at h
    simp at h
  · rw [if_neg hse] at h
    cases hc : t[s]? with
    | none =>
      rw [hc] at h
      simp at h
    | some c =>
      rw [hc] at h
      cases ha : Alpha c with
      | false => simp [ha] at h
      | true => exact ⟨c, rfl, ha⟩

theorem validIdentifier_nonalpha (t : List Char) (s : Nat) (c : Char)
    (hne : ¬ s = t.length) (hc : t[s]? = some c) (ha : Alpha c = false) :
    ValidIdentifier t s =
      Except.error ("expected identifier saw non-alphabetic '" ++ toString c ++
        "' at index " ++ toString s) := by
  unfold ValidIdentifier
  rw [if_neg hne, hc]
  simp [ha]

theorem validType_ok_head (t : List Char) (e : Nat) (h : ValidType t 0 = Except.ok e) :
    ∃ c0, t[0]? = some c0 ∧ Alpha c0 = true := by
  have h2 : ValidTypeF (2 * t.length + 1 + 1) t 0 = Except.ok e := h
  cases hvi : ValidIdentifier t 0 with
  | error msg =>
    rw [VT_err_id (2 * t.length + 1) t 0 msg hvi] at h2
    simp at h2
  | ok id => exact validIdentifier_ok_char t 0 id hvi

theorem safeComma : safeChar ',' = true := by decide

theorem safeHead_commaJoin_append (rest : List (List Char)) (tail : List Char)
    (h : safeHead tail = true) : safeHead (commaJoin rest ++ tail) = true := by
  cases rest with
  | nil => simpa [commaJoin] using h
  | cons r rs => simp [commaJoin, safeHead, safeComma]

theorem commaJoin_length_cons (t1 : List Char) (rest : List (List Char)) :
    (commaJoin (t1 :: rest)).length = 1 + t1.length + (commaJoin rest).length := by
  simp [commaJoin]
  omega

/-- One comma-separated item of a type list is consumed by one loop
iteration: from the comma before it to the position right after it. -/
theorem typeList_item_step (g : Nat) (t1 pre suffix : List Char) (cl : Char)
    (hval : ValidType t1 0 = Except.ok t1.length)
    (hnc : ¬ (',' : Char) = cl)
    (hsafe : safeHead suffix = true)
    (hfuel : 2 * t1.length + 2 ≤ g)
    (hsufne : suffix ≠ []) :
    typeListF (g + 1) (pre ++ (',' :: t1) ++ suffix) cl pre.length false =
      typeListF g (pre ++ (',' :: t1) ++ suffix) cl (pre.length + 1 + t1.length) false := by
  have hcomma : (pre ++ (',' :: t1) ++ suffix)[pre.length]? = some ',' := by
    have := getElem?_embed pre (',' :: t1) suffix 0 (by simp)
    rw [Nat.add_zero] at this
    rw [this]
    simp
  have hvstand : ValidTypeF (2 * t1.length + 2) t1 0 = Except.ok t1.length := hval
  have hvembed := (parserF_embed (2 * t1.length + 2)).1 t1 0 t1.length hvstand
    (pre ++ [',']) suffix (fun _ => hsafe)
  rw [Nat.add_zero] at hvembed
  have hshape : (pre ++ [',']) ++ t1 ++ suffix = pre ++ (',' :: t1) ++ suffix := by
    simp
  have hplen : (pre ++ [',']).length = pre.length + 1 := by simp
  rw [hshape, hplen] at hvembed
  have hvbig : ValidTypeF g (pre ++ (',' :: t1) ++ suffix) (pre.length + 1) =
      Except.ok (pre.length + 1 + t1.length) :=
    (parserF_mono (2 * t1.length + 2)).1 _ _ _ hvembed g hfuel
  have hlen : (pre ++ (',' :: t1) ++ suffix).length =
      pre.length + (1 + t1.length) + suffix.length := by
    simp
    omega
  have hsuflen : 0 < suffix.length := List.length_pos.mpr hsufne
  exact TL_comma_ok_go g (pre ++ (',' :: t1) ++ suffix) cl pre.length
    (pre.length + 1 + t1.length) hcomma hnc hvbig (by omega)

/-- The first (comma-less) item of a type list. -/
theorem typeList_first_step (g : Nat) (t1 pre suffix : List Char) (cl : Char)
    (hval : ValidType t1 0 = Except.ok t1.length)
    (hcl : Alpha cl = false)
    (hsafe : safeHead suffix = true)
    (hfuel : 2 * t1.length + 2 ≤ g)
    (hsufne : suffix ≠ []) :
    typeListF (g + 1) (pre ++ t1 ++ suffix) cl pre.length true =
      typeListF g (pre ++ t1 ++ suffix) cl (pre.length + t1.length) false := by
  obtain ⟨c0, hc0, ha0⟩ := validType_ok_head t1 t1.length hval
  have hhead : (pre ++ t1 ++ suffix)[pre.length]? = some c0 := by
    have := getElem?_embed pre t1 suffix 0 (getElem?_some_lt hc0)
    rw [Nat.add_zero] at this
    rw [this]
    exact hc0
  have hne : ¬ c0 = cl := by
    intro hh
    rw [hh, hcl] at ha0
    exact absurd ha0 (by simp)
  have hvstand : ValidTypeF (2 * t1.length + 2) t1 0 = Except.ok t1.length := hval
  have hvembed := (parserF_embed (2 * t1.length + 2)).1 t1 0 t1.length hvstand
    pre suffix (fun _ => hsafe)
  rw [Nat.add_zero] at hvembed
  have hvbig := (parserF_mono (2 * t1.length + 2)).1 _ _ _ hvembed g hfuel
  have hlen : (pre ++ t1 ++ suffix).length = pre.length + t1.length + suffix.length := by
    simp
    omega
  have hsuflen : 0 < suffix.length := List.length_pos.mpr hsufne
  exact TL_first_ok_go g (pre ++ t1 ++ suffix) cl pre.length c0
    (pre.length + t1.length) hhead hne hvbig (by omega)

theorem typeList_run_close : ∀ (ts : List (List Char)) (g : Nat) (pre : List Char) (cl : Char),
    safeChar cl = true → ¬ (',' : Char) = cl →
    (∀ ti ∈ ts, ValidType ti 0 = Except.ok ti.length) →
    2 * (commaJoin ts).length + 3 ≤ g →
    typeListF g (pre ++ commaJoin ts ++ [cl]) cl pre.length false =
      Except.ok (pre ++ commaJoin ts ++ [cl]).length := by
  intro ts
  induction ts with
  | nil =>
    intro g pre cl hscl hnc hval hfuel
    simp only [commaJoin, List.append_nil]
    cases g with
    | zero => omega
    | succ g1 =>
      have hcl0 : (pre ++ [cl])[pre.length]? = some cl := by
        rw [List.getElem?_append_right (Nat.le_refl pre.length), Nat.sub_self]
        simp
      rw [TL_close g1 (pre ++ [cl]) cl pre.length false hcl0]
      have hcw : consumeWhile isStar (pre ++ [cl]) (pre.length + 1) = pre.length + 1 := by
        apply cw_stop_none
        apply List.getElem?_eq_none
        simp
      rw [hcw]
      simp
  | cons t1 rest ih =>
    intro g pre cl hscl hnc hval hfuel
    have hlen1 := commaJoin_length_cons t1 rest
    have hshape : pre ++ commaJoin (t1 :: rest) ++ [cl] =
        pre ++ (',' :: t1) ++ (commaJoin rest ++ [cl]) := by
      simp [commaJoin]
    rw [hshape]
    cases g with
    | zero => omega
    | succ g1 =>
      rw [typeList_item_step g1 t1 pre (commaJoin rest ++ [cl]) cl
        (hval t1 (by simp)) hnc
        (safeHead_commaJoin_append rest [cl] hscl)
        (by omega) (by simp)]
      have hshape2 : pre ++ (',' :: t1) ++ (commaJoin rest ++ [cl]) =
          (pre ++ (',' :: t1)) ++ commaJoin rest ++ [cl] := by
        simp
      rw [hshape2]
      have hplen2 : pre.length + 1 + t1.length = (pre ++ (',' :: t1)).length := by
        simp
        omega
      rw [hplen2]
      exact ih g1 (pre ++ (',' :: t1)) cl hscl hnc
        (fun ti hti => hval ti (by simp [hti])) (by omega)

theorem typeList_run_missing : ∀ (ts : List (List Char)) (g : Nat) (pre : List Char) (cl : Char),
    ¬ (',' : Char) = cl →
    (∀ ti ∈ ts, ValidType ti 0 = Except.ok ti.length) →
    2 * (commaJoin ts).length + 3 ≤ g →
    typeListF g (pre ++ commaJoin ts) cl pre.length false =
      Except.error "Unexpected end to type list" := by
  intro ts
  induction ts with
  | nil =>
    intro g pre cl hnc hval hfuel
    simp only [commaJoin, List.append_nil]
    cases g with
    | zero => omega
    | succ g1 =>
      exact TL_none g1 pre cl pre.length false (List.getElem?_eq_none (Nat.le_refl pre.length))
  | cons t1 rest ih =>
    intro g pre cl hnc hval hfuel
    have hlen1 := commaJoin_length_cons t1 rest
    cases rest with
    | nil =>
      have hshape : pre ++ commaJoin [t1] = pre ++ (',' :: t1) := by
        simp [commaJoin]
      rw [hshape]
      cases g with
      | zero => omega
      | succ g1 =>
        have hcomma : (pre ++ (',' :: t1))[pre.length]? = some ',' := by
          rw [List.getElem?_append_right (Nat.le_refl pre.length), Nat.sub_self]
          simp
        have hvstand : ValidTypeF (2 * t1.length + 2) t1 0 = Except.ok t1.length :=
          hval t1 (by simp)
        have hvembed := (parserF_embed (2 * t1.length + 2)).1 t1 0 t1.length hvstand
          (pre ++ [',']) [] (fun _ => rfl)
        rw [Nat.add_zero] at hvembed
        have hshape3 : (pre ++ [',']) ++ t1 ++ [] = pre ++ (',' :: t1) := by
          simp
        have hplen3 : (pre ++ [',']).length = pre.length + 1 := by simp
        rw [hshape3, hplen3] at hvembed
        have hvbig := (parserF_mono (2 * t1.length + 2)).1 _ _ _ hvembed g1 (by omega)
        exact TL_comma_ok_end g1 (pre ++ (',' :: t1)) cl pre.length
          (pre.length + 1 + t1.length) hcomma hnc hvbig (by simp; omega)
    | cons t2 rest2 =>
      have hshape : pre ++ commaJoin (t1 :: t2 :: rest2) =
          pre ++ (',' :: t1) ++ commaJoin (t2 :: rest2) := by
        simp [commaJoin]
      rw [hshape]
      cases g with
      | zero => omega
      | succ g1 =>
        rw [typeList_item_step g1 t1 pre (commaJoin (t2 :: rest2)) cl
          (hval t1 (by simp)) hnc
          (by simp [commaJoin, safeHead, safeComma])
          (by omega) (by simp [commaJoin])]
        have hshape2 : pre ++ (',' :: t1) ++ commaJoin (t2 :: rest2) =
            (pre ++ (',' :: t1)) ++ commaJoin (t2 :: rest2) := by
          simp
        rw [hshape2]
        have hplen2 : pre.length + 1 + t1.length = (pre ++ (',' :: t1)).length := by
          simp
          omega
        rw [hplen2]
        exact ih g1 (pre ++ (',' :: t1)) cl hnc
          (fun ti hti => hval ti (by simp [hti])) (by omega)

theorem typeList_run_mismatch : ∀ (ts : List (List Char)) (g : Nat) (pre : List Char)
    (cl cl' : Char),
    safeChar cl' = true → ¬ cl' = cl → ¬ cl' = ',' → ¬ (',' : Char) = cl →
    (∀ ti ∈ ts, ValidType ti 0 = Except.ok ti.length) →
    2 * (commaJoin ts).length + 3 ≤ g →
    (typeListF g (pre ++ commaJoin ts ++ [cl']) cl pre.length false).isOk = false := by
  intro ts
  induction ts with
  | nil =>
    intro g pre cl cl' hscl hne hnc2 hnc hval hfuel
    simp only [commaJoin, List.append_nil]
    cases g with
    | zero => omega
    | succ g1 =>
      have hcl0 : (pre ++ [cl'])[pre.length]? = some cl' := by
        rw [List.getElem?_append_right (Nat.le_refl pre.length), Nat.sub_self]
        simp
      rw [TL_badsep g1 (pre ++ [cl']) cl pre.length cl' hcl0 hne hnc2]
      rfl
  | cons t1 rest ih =>
    intro g pre cl cl' hscl hne hnc2 hnc hval hfuel
    have hlen1 := commaJoin_length_cons t1 rest
    have hshape : pre ++ commaJoin (t1 :: rest) ++ [cl'] =
        pre ++ (',' :: t1) ++ (commaJoin rest ++ [cl']) := by
      simp [commaJoin]
    rw [hshape]
    cases g with
    | zero => omega
    | succ g1 =>
      rw [typeList_item_step g1 t1 pre (commaJoin rest ++ [cl']) cl
        (hval t1 (by simp)) hnc
        (safeHead_commaJoin_append rest [cl'] hscl)
        (by omega) (by simp)]
      have hshape2 : pre ++ (',' :: t1) ++ (commaJoin rest ++ [cl']) =
          (pre ++ (',' :: t1)) ++ commaJoin rest ++ [cl'] := by
        simp
      rw [hshape2]
      have hplen2 : pre.length + 1 + t1.length = (pre ++ (',' :: t1)).length := by
        simp
        omega
      rw [hplen2]
      exact ih g1 (pre ++ (',' :: t1)) cl cl' hscl hne hnc2 hnc
        (fun ti hti => hval ti (by simp [hti])) (by omega)

theorem typeList_run_trailing : ∀ (ts : List (List Char)) (g : Nat) (pre : List Char)
    (cl : Char),
    ¬ (',' : Char) = cl → Alpha cl = false →
    (∀ ti ∈ ts, ValidType ti 0 = Except.ok ti.length) →
    2 * (commaJoin ts).length + 3 ≤ g →
    (typeListF g (pre ++ commaJoin ts ++ [',', cl]) cl pre.length false).isOk = false := by
  intro ts
  induction ts with
  | nil =>
    intro g pre cl hnc hacl hval hfuel
    simp only [commaJoin, List.append_nil]
    cases g with
    | zero => omega
    | succ g1 =>
      cases g1 with
      | zero => omega
      | succ g2 =>
        have hcomma : (pre ++ [',', cl])[pre.length]? = some ',' := by
          rw [List.getElem?_append_right (Nat.le_refl pre.length), Nat.sub_self]
          simp
        have hgetcl : (pre ++ [',', cl])[pre.length + 1]? = some cl := by
          rw [List.getElem?_append_right (Nat.le_add_right pre.length 1),
            Nat.add_sub_cancel_left]
          simp
        have hvierr := validIdentifier_nonalpha (pre ++ [',', cl]) (pre.length + 1) cl
          (by simp) hgetcl hacl
        have hvterr := VT_err_id g2 (pre ++ [',', cl]) (pre.length + 1) _ hvierr
        rw [TL_comma_err (g2 + 1) (pre ++ [',', cl]) cl pre.length _ hcomma hnc hvterr]
        rfl
  | cons t1 rest ih =>
    intro g pre cl hnc hacl hval hfuel
    have hlen1 := commaJoin_length_cons t1 rest
    have hshape : pre ++ commaJoin (t1 :: rest) ++ [',', cl] =
        pre ++ (',' :: t1) ++ (commaJoin rest ++ [',', cl]) := by
      simp [commaJoin]
    rw [hshape]
    cases g with
    | zero => omega
    | succ g1 =>
      rw [typeList_item_step g1 t1 pre (commaJoin rest ++ [',', cl]) cl
        (hval t1 (by simp)) hnc
        (safeHead_commaJoin_append rest [',', cl] safeComma)
        (by omega) (by simp)]
      have hshape2 : pre ++ (',' :: t1) ++ (commaJoin rest ++ [',', cl]) =
          (pre ++ (',' :: t1)) ++ commaJoin rest ++ [',', cl] := by
        simp
      rw [hshape2]
      have hplen2 : pre.length + 1 + t1.length = (pre ++ (',' :: t1)).length := by
        simp
        omega
      rw [hplen2]
      exact ih g1 (pre ++ (',' :: t1)) cl hnc hacl
        (fun ti hti => hval ti (by simp [hti])) (by omega)

theorem validType_entry (op cl : Char) (rest : List Char) (g : Nat)
    (hop : AlNum op = false)
    (hbr : (op = '[' ∧ cl = ']') ∨ (op = '(' ∧ cl = ')') ∨ (op = '<' ∧ cl = '>'))
    (hrest : rest ≠ []) :
    ValidTypeF (g + 2) ('A' :: op :: rest) 0 = typeListF g ('A' :: op :: rest) cl 2 true := by
  have hrl : 0 < rest.length := List.length_pos.mpr hrest
  have hvi : ValidIdentifier ('A' :: op :: rest) 0 = Except.ok 1 := by
    rw [validIdentifier_some_alpha ('A' :: op :: rest) 0 'A' (by simp) (by simp)
      (by decide)]
    rw [cw_stop_fail AlNum ('A' :: op :: rest) 1 op (by simp) hop]
  have h1ne : ¬ (1 : Nat) = ('A' :: op :: rest).length := by
    simp
  have h2ne : ¬ 1 + 1 = ('A' :: op :: rest).length := by
    simp only [List.length_cons]
    omega
  show ValidTypeF (g + 1 + 1) ('A' :: op :: rest) 0 = _
  rcases hbr with ⟨ho, hc⟩ | ⟨ho, hc⟩ | ⟨ho, hc⟩
  · subst ho
    subst hc
    rw [VT_lbrack (g + 1) ('A' :: '[' :: rest) 0 1 hvi h1ne (by simp)]
    exact BL_go g ('A' :: '[' :: rest) ']' 1 h2ne
  · subst ho
    subst hc
    rw [VT_lparen (g + 1) ('A' :: '(' :: rest) 0 1 hvi h1ne (by simp)]
    exact BL_go g ('A' :: '(' :: rest) ')' 1 h2ne
  · subst ho
    subst hc
    rw [VT_langle (g + 1) ('A' :: '<' :: rest) 0 1 hvi h1ne (by simp)]
    exact BL_go g ('A' :: '<' :: rest) '>' 1 h2ne

theorem alpha_false_of_alnum_false (c : Char) (h : AlNum c = false) : Alpha c = false := by
  simp [AlNum] at h
  exact h.1

theorem validType_accept (op cl : Char) (ts : List (List Char))
    (hop : AlNum op = false) (hscl : safeChar cl = true) (hnc : ¬ (',' : Char) = cl)
    (hbr : (op = '[' ∧ cl = ']') ∨ (op = '(' ∧ cl = ')') ∨ (op = '<' ∧ cl = '>'))
    (hval : ∀ ti ∈ ts, ValidType ti 0 = Except.ok ti.length) :
    ValidType ('A' :: op :: (typeListBody ts ++ [cl])) 0 =
      Except.ok ((typeListBody ts).length + 3) := by
  cases ts with
  | nil =>
    rcases hbr with ⟨ho, hc⟩ | ⟨ho, hc⟩ | ⟨ho, hc⟩ <;> subst ho <;> subst hc <;> decide
  | cons t1 rest =>
    have hacl : Alpha cl = false := alpha_false_of_alnum_false cl (safeChar_spec cl hscl).1
    obtain ⟨c0, hc0, ha0⟩ := validType_ok_head t1 t1.length (hval t1 (by simp))
    have ht1pos : 0 < t1.length := getElem?_some_lt hc0
    have hbody : typeListBody (t1 :: rest) = t1 ++ commaJoin rest := by
      simp [typeListBody, commaJoin]
    rw [hbody]
    have hassoc : (t1 ++ commaJoin rest) ++ [cl] = t1 ++ (commaJoin rest ++ [cl]) :=
      List.append_assoc t1 (commaJoin rest) [cl]
    rw [hassoc]
    unfold ValidType
    rw [validType_entry op cl (t1 ++ (commaJoin rest ++ [cl]))
      (2 * ('A' :: op :: (t1 ++ (commaJoin rest ++ [cl]))).length) hop hbr (by simp)]
    have hfullen : ('A' :: op :: (t1 ++ (commaJoin rest ++ [cl]))).length =
        t1.length + (commaJoin rest).length + 3 := by
      simp
      omega
    rw [hfullen]
    have hG : 2 * (t1.length + (commaJoin rest).length + 3) =
        (2 * t1.length + 2 * (commaJoin rest).length + 5) + 1 := by omega
    rw [hG]
    refine Eq.trans (typeList_first_step (2 * t1.length + 2 * (commaJoin rest).length + 5)
      t1 ['A', op] (commaJoin rest ++ [cl]) cl (hval t1 (by simp)) hacl
      (safeHead_commaJoin_append rest [cl] hscl) (by omega) (by simp)) ?_
    rw [← List.append_assoc]
    have hidx : (['A', op] : List Char).length + t1.length =
        ((['A', op] : List Char) ++ t1).length := by
      simp
      omega
    rw [hidx]
    rw [typeList_run_close rest (2 * t1.length + 2 * (commaJoin rest).length + 5)
      ((['A', op] : List Char) ++ t1) cl hscl hnc
      (fun ti hti => hval ti (by simp [hti])) (by omega)]
    have hfin : ((((['A', op] : List Char) ++ t1) ++ commaJoin rest ++ [cl])).length =
        (t1 ++ commaJoin rest).length + 3 := by
      simp
      omega
    rw [hfin]

theorem validType_missing (op cl : Char) (ts : List (List Char))
    (hop : AlNum op = false) (hscl : safeChar cl = true) (hnc : ¬ (',' : Char) = cl)
    (hbr : (op = '[' ∧ cl = ']') ∨ (op = '(' ∧ cl = ')') ∨ (op = '<' ∧ cl = '>'))
    (hval : ∀ ti ∈ ts, ValidType ti 0 = Except.ok ti.length) :
    (ValidType ('A' :: op :: typeListBody ts) 0).isOk = false := by
  cases ts with
  | nil =>
    rcases hbr with ⟨ho, hc⟩ | ⟨ho, hc⟩ | ⟨ho, hc⟩ <;> subst ho <;> subst hc <;> decide
  | cons t1 rest =>
    have hacl : Alpha cl = false := alpha_false_of_alnum_false cl (safeChar_spec cl hscl).1
    obtain ⟨c0, hc0, ha0⟩ := validType_ok_head t1 t1.length (hval t1 (by simp))
    have ht1pos : 0 < t1.length := getElem?_some_lt hc0
    have hbody : typeListBody (t1 :: rest) = t1 ++ commaJoin rest := by
      simp [typeListBody, commaJoin]
    rw [hbody]
    cases rest with
    | nil =>
      have hsh : t1 ++ commaJoin ([] : List (List Char)) = t1 := by
        simp [commaJoin]
      rw [hsh]
      have htne : t1 ≠ [] := by
        intro hh
        rw [hh] at ht1pos
        simp at ht1pos
      unfold ValidType
      rw [validType_entry op cl t1 (2 * ('A' :: op :: t1).length) hop hbr htne]
      have hfullen : ('A' :: op :: t1).length = t1.length + 2 := by
        simp only [List.length_cons]
      rw [hfullen]
      have hG : 2 * (t1.length + 2) = (2 * t1.length + 3) + 1 := by omega
      rw [hG]
      rw [show ('A' :: op :: t1) = (['A', op] : List Char) ++ t1 ++ [] from by simp]
      have hvembed := (parserF_embed (2 * t1.length + 2)).1 t1 0 t1.length
        (hval t1 (by simp)) ['A', op] [] (fun _ => rfl)
      rw [Nat.add_zero] at hvembed
      have hvbig := (parserF_mono (2 * t1.length + 2)).1 _ _ _ hvembed
        (2 * t1.length + 3) (by omega)
      have hhead : ((['A', op] : List Char) ++ t1 ++ [])[(2 : Nat)]? = some c0 := by
        have h2 := getElem?_embed ['A', op] t1 [] 0 ht1pos
        rw [Nat.add_zero] at h2
        exact h2.trans hc0
      have hne0 : ¬ c0 = cl := by
        intro hh
        rw [hh, hacl] at ha0
        exact absurd ha0 (by simp)
      rw [TL_first_ok_end (2 * t1.length + 3) ((['A', op] : List Char) ++ t1 ++ []) cl 2 c0
        ((['A', op] : List Char).length + t1.length) hhead hne0 hvbig
        (by simp only [List.length_append, List.length_cons, List.length_nil]; omega)]
      rfl
    | cons t2 rest2 =>
      have htne : t1 ++ commaJoin (t2 :: rest2) ≠ [] := by
        intro hh
        have hl := congrArg List.length hh
        simp only [List.length_append, List.length_nil] at hl
        omega
      unfold ValidType
      rw [validType_entry op cl (t1 ++ commaJoin (t2 :: rest2))
        (2 * ('A' :: op :: (t1 ++ commaJoin (t2 :: rest2))).length) hop hbr htne]
      have hfullen : ('A' :: op :: (t1 ++ commaJoin (t2 :: rest2))).length =
          t1.length + (commaJoin (t2 :: rest2)).length + 2 := by
        simp only [List.length_cons, List.length_append]
      rw [hfullen]
      have hG : 2 * (t1.length + (commaJoin (t2 :: rest2)).length + 2) =
          (2 * t1.length + 2 * (commaJoin (t2 :: rest2)).length + 3) + 1 := by omega
      rw [hG]
      show (typeListF ((2 * t1.length + 2 * (commaJoin (t2 :: rest2)).length + 3) + 1)
        ((['A', op] : List Char) ++ t1 ++ commaJoin (t2 :: rest2)) cl
        (['A', op] : List Char).length true).isOk = false
      rw [typeList_first_step (2 * t1.length + 2 * (commaJoin (t2 :: rest2)).length + 3)
        t1 ['A', op] (commaJoin (t2 :: rest2)) cl (hval t1 (by simp)) hacl
        (by simp [commaJoin, safeHead, safeComma]) (by omega) (by simp [commaJoin])]
      have hidx : (['A', op] : List Char).length + t1.length =
          ((['A', op] : List Char) ++ t1).length := by
        simp
        omega
      rw [hidx]
      rw [show (['A', op] : List Char) ++ t1 ++ commaJoin (t2 :: rest2) =
        ((['A', op] : List Char) ++ t1) ++ commaJoin (t2 :: rest2) from by simp]
      rw [typeList_run_missing (t2 :: rest2)
        (2 * t1.length + 2 * (commaJoin (t2 :: rest2)).length + 3)
        ((['A', op] : List Char) ++ t1) cl hnc
        (fun ti hti => hval ti (by simp [hti])) (by omega)]
      rfl

theorem validType_mismatch (op cl cl' : Char) (ts : List (List Char))
    (hop : AlNum op = false) (hscl : safeChar cl = true) (hscl2 : safeChar cl' = true)
    (hnc : ¬ (',' : Char) = cl) (hne2 : ¬ cl' = cl) (hnc2 : ¬ cl' = ',')
    (hacl2 : Alpha cl' = false)
    (hbr : (op = '[' ∧ cl = ']') ∨ (op = '(' ∧ cl = ')') ∨ (op = '<' ∧ cl = '>'))
    (hval : ∀ ti ∈ ts, ValidType ti 0 = Except.ok ti.length) :
    (ValidType ('A' :: op :: (typeListBody ts ++ [cl'])) 0).isOk = false := by
  cases ts with
  | nil =>
    have hsh : typeListBody ([] : List (List Char)) ++ [cl'] = [cl'] := by
      simp [typeListBody, commaJoin]
    rw [hsh]
    unfold ValidType
    rw [validType_entry op cl [cl'] (2 * ('A' :: op :: [cl']).length) hop hbr (by simp)]
    have hfullen : ('A' :: op :: [cl']).length = 3 := by simp
    rw [hfullen]
    have hvierr := validIdentifier_nonalpha ('A' :: op :: [cl']) 2 cl' (by simp) (by simp)
      hacl2
    have hvterr := VT_err_id 4 ('A' :: op :: [cl']) 2 _ hvierr
    show (typeListF (5 + 1) ('A' :: op :: [cl']) cl 2 true).isOk = false
    rw [TL_first_err 5 ('A' :: op :: [cl']) cl 2 cl' _ (by simp) hne2 hvterr]
    rfl
  | cons t1 rest =>
    have hacl : Alpha cl = false := alpha_false_of_alnum_false cl (safeChar_spec cl hscl).1
    obtain ⟨c0, hc0, ha0⟩ := validType_ok_head t1 t1.length (hval t1 (by simp))
    have ht1pos : 0 < t1.length := getElem?_some_lt hc0
    have hbody : typeListBody (t1 :: rest) = t1 ++ commaJoin rest := by
      simp [typeListBody, commaJoin]
    rw [hbody]
    have hassoc : (t1 ++ commaJoin rest) ++ [cl'] = t1 ++ (commaJoin rest ++ [cl']) :=
      List.append_assoc t1 (commaJoin rest) [cl']
    rw [hassoc]
    unfold ValidType
    rw [validType_entry op cl (t1 ++ (commaJoin rest ++ [cl']))
      (2 * ('A' :: op :: (t1 ++ (commaJoin rest ++ [cl']))).length) hop hbr (by simp)]
    have hfullen : ('A' :: op :: (t1 ++ (commaJoin rest ++ [cl']))).length =
        t1.length + (commaJoin rest).length + 3 := by
      simp
      omega
    rw [hfullen]
    have hG : 2 * (t1.length + (commaJoin rest).length + 3) =
        (2 * t1.length + 2 * (commaJoin rest).length + 5) + 1 := by omega
    rw [hG]
    show (typeListF ((2 * t1.length + 2 * (commaJoin rest).length + 5) + 1)
      ((['A', op] : List Char) ++ t1 ++ (commaJoin rest ++ [cl'])) cl
      (['A', op] : List Char).length true).isOk = false
    rw [typeList_first_step (2 * t1.length + 2 * (commaJoin rest).length + 5)
      t1 ['A', op] (commaJoin rest ++ [cl']) cl (hval t1 (by simp)) hacl
      (safeHead_commaJoin_append rest [cl'] hscl2) (by omega) (by simp)]
    have hidx : (['A', op] : List Char).length + t1.length =
        ((['A', op] : List Char) ++ t1).length := by
      simp
      omega
    rw [hidx]
    rw [show (['A', op] : List Char) ++ t1 ++ (commaJoin rest ++ [cl']) =
      ((['A', op] : List Char) ++ t1) ++ commaJoin rest ++ [cl'] from by simp]
    exact typeList_run_mismatch rest (2 * t1.length + 2 * (commaJoin rest).length + 5)
      ((['A', op] : List Char) ++ t1) cl cl' hscl2 hne2 hnc2 hnc
      (fun ti hti => hval ti (by simp [hti])) (by omega)

theorem validType_trailing (op cl : Char) (t1 : List Char) (rest : List (List Char))
    (hop : AlNum op = false) (hscl : safeChar cl = true) (hnc : ¬ (',' : Char) = cl)
    (hbr : (op = '[' ∧ cl = ']') ∨ (op = '(' ∧ cl = ')') ∨ (op = '<' ∧ cl = '>'))
    (hval : ∀ ti ∈ t1 :: rest, ValidType ti 0 = Except.ok ti.length) :
    (ValidType ('A' :: op :: (typeListBody (t1 :: rest) ++ [',', cl])) 0).isOk = false := by
  have hacl : Alpha cl = false := alpha_false_of_alnum_false cl (safeChar_spec cl hscl).1
  obtain ⟨c0, hc0, ha0⟩ := validType_ok_head t1 t1.length (hval t1 (by simp))
  have ht1pos : 0 < t1.length := getElem?_some_lt hc0
  have hbody : typeListBody (t1 :: rest) = t1 ++ commaJoin rest := by
    simp [typeListBody, commaJoin]
  rw [hbody]
  have hassoc : (t1 ++ commaJoin rest) ++ [',', cl] = t1 ++ (commaJoin rest ++ [',', cl]) :=
    List.append_assoc t1 (commaJoin rest) [',', cl]
  rw [hassoc]
  unfold ValidType
  rw [validType_entry op cl (t1 ++ (commaJoin rest ++ [',', cl]))
    (2 * ('A' :: op :: (t1 ++ (commaJoin rest ++ [',', cl]))).length) hop hbr (by simp)]
  have hfullen : ('A' :: op :: (t1 ++ (commaJoin rest ++ [',', cl]))).length =
      t1.length + (commaJoin rest).length + 4 := by
    simp
    omega
  rw [hfullen]
  have hG : 2 * (t1.length + (commaJoin rest).length + 4) =
      (2 * t1.length + 2 * (commaJoin rest).length + 7) + 1 := by omega
  rw [hG]
  show (typeListF ((2 * t1.length + 2 * (commaJoin rest).length + 7) + 1)
    ((['A', op] : List Char) ++ t1 ++ (commaJoin rest ++ [',', cl])) cl
    (['A', op] : List Char).length true).isOk = false
  rw [typeList_first_step (2 * t1.length + 2 * (commaJoin rest).length + 7)
    t1 ['A', op] (commaJoin rest ++ [',', cl]) cl (hval t1 (by simp)) hacl
    (safeHead_commaJoin_append rest [',', cl] safeComma) (by omega) (by simp)]
  have hidx : (['A', op] : List Char).length + t1.length =
      ((['A', op] : List Char) ++ t1).length := by
    simp
    omega
  rw [hidx]
  rw [show (['A', op] : List Char) ++ t1 ++ (commaJoin rest ++ [',', cl]) =
    ((['A', op] : List Char) ++ t1) ++ commaJoin rest ++ [',', cl] from by simp]
  exact typeList_run_trailing rest (2 * t1.length + 2 * (commaJoin rest).length + 7)
    ((['A', op] : List Char) ++ t1) cl hnc hacl
    (fun ti hti => hval ti (by simp [hti])) (by omega)

/-- C8: for every list of full valid type expressions t1..tn, ValidType
accepts A<t1,...,tn>, A[t1,...,tn] and A(t1,...,tn), ending at the same
offset (the body length plus three) for every delimiter choice, including
the zero-argument forms A<>, A[], A(); the same text with the closing
delimiter missing, with a mismatched closing delimiter, or with a trailing
comma is rejected; and bracket kinds need not match across nesting levels:
A[B(int)] is accepted to its full length. -/
theorem c8_bracket_type_lists (ts : List (List Char))
    (hval : ∀ ti ∈ ts, ValidType ti 0 = Except.ok ti.length) :
    (∀ p ∈ [('[', ']'), ('(', ')'), ('<', '>')],
      ValidType ('A' :: p.1 :: (typeListBody ts ++ [p.2])) 0 =
        Except.ok ((typeListBody ts).length + 3)) ∧
    (∀ p ∈ [('[', ']'), ('(', ')'), ('<', '>')],
      (ValidType ('A' :: p.1 :: typeListBody ts) 0).isOk = false) ∧
    (∀ p ∈ [('[', ']'), ('(', ')'), ('<', '>')], ∀ cl2 ∈ [']', ')', '>'], ¬ cl2 = p.2 →
      (ValidType ('A' :: p.1 :: (typeListBody ts ++ [cl2])) 0).isOk = false) ∧
    (ts ≠ [] → ∀ p ∈ [('[', ']'), ('(', ')'), ('<', '>')],
      (ValidType ('A' :: p.1 :: (typeListBody ts ++ [',', p.2])) 0).isOk = false) ∧
    ValidType "A[B(int)]".data 0 = Except.ok 9 := by
  refine ⟨?_, ?_, ?_, ?_, by decide⟩
  · intro p hp
    simp only [List.mem_cons, List.not_mem_nil, or_false] at hp
    rcases hp with rfl | rfl | rfl
    · exact validType_accept '[' ']' ts (by decide) (by decide) (by decide)
        (Or.inl ⟨rfl, rfl⟩) hval
    · exact validType_accept '(' ')' ts (by decide) (by decide) (by decide)
        (Or.inr (Or.inl ⟨rfl, rfl⟩)) hval
    · exact validType_accept '<' '>' ts (by decide) (by decide) (by decide)
        (Or.inr (Or.inr ⟨rfl, rfl⟩)) hval
  · intro p hp
    simp only [List.mem_cons, List.not_mem_nil, or_false] at hp
    rcases hp with rfl | rfl | rfl
    · exact validType_missing '[' ']' ts (by decide) (by decide) (by decide)
        (Or.inl ⟨rfl, rfl⟩) hval
    · exact validType_missing '(' ')' ts (by decide) (by decide) (by decide)
        (Or.inr (Or.inl ⟨rfl, rfl⟩)) hval
    · exact validType_missing '<' '>' ts (by decide) (by decide) (by decide)
        (Or.inr (Or.inr ⟨rfl, rfl⟩)) hval
  · intro p hp cl2 hcl2 hne
    simp only [List.mem_cons, List.not_mem_nil, or_false] at hp hcl2
    rcases hp with rfl | rfl | rfl <;> rcases hcl2 with rfl | rfl | rfl
    all_goals try exact absurd rfl hne
    · exact validType_mismatch '[' ']' ')' ts (by decide) (by decide) (by decide)
        (by decide) hne (by decide) (by decide) (Or.inl ⟨rfl, rfl⟩) hval
    · exact validType_mismatch '[' ']' '>' ts (by decide) (by decide) (by decide)
        (by decide) hne (by decide) (by decide) (Or.inl ⟨rfl, rfl⟩) hval
    · exact validType_mismatch '(' ')' ']' ts (by decide) (by decide) (by decide)
        (by decide) hne (by decide) (by decide) (Or.inr (Or.inl ⟨rfl, rfl⟩)) hval
    · exact validType_mismatch '(' ')' '>' ts (by decide) (by decide) (by decide)
        (by decide) hne (by decide) (by decide) (Or.inr (Or.inl ⟨rfl, rfl⟩)) hval
    · exact validType_mismatch '<' '>' ']' ts (by decide) (by decide) (by decide)
        (by decide) hne (by decide) (by decide) (Or.inr (Or.inr ⟨rfl, rfl⟩)) hval
    · exact validType_mismatch '<' '>' ')' ts (by decide) (by decide) (by decide)
        (by decide) hne (by decide) (by decide) (Or.inr (Or.inr ⟨rfl, rfl⟩)) hval
  · intro hts p hp
    cases ts with
    | nil => exact absurd rfl hts
    | cons t1 rest =>
      simp only [List.mem_cons, List.not_mem_nil, or_false] at hp
      rcases hp with rfl | rfl | rfl
      · exact validType_trailing '[' ']' t1 rest (by decide) (by decide) (by decide)
          (Or.inl ⟨rfl, rfl⟩) hval
      · exact validType_trailing '(' ')' t1 rest (by decide) (by decide) (by decide)
          (Or.inr (Or.inl ⟨rfl, rfl⟩)) hval
      · exact validType_trailing '<' '>' t1 rest (by decide) (by decide) (by decide)
          (Or.inr (Or.inr ⟨rfl, rfl⟩)) hval

/-- C8 witness: the statement at the concrete valid type list (int, B). -/
theorem c8_witness_int_B :
    (∀ p ∈ [('[', ']'), ('(', ')'), ('<', '>')],
      ValidType ('A' :: p.1 :: (typeListBody ["int".data, "B".data] ++ [p.2])) 0 =
        Except.ok ((typeListBody ["int".data, "B".data]).length + 3)) ∧
    (∀ p ∈ [('[', ']'), ('(', ')'), ('<', '>')],
      (ValidType ('A' :: p.1 :: typeListBody ["int".data, "B".data]) 0).isOk = false) ∧
    (∀ p ∈ [('[', ']'), ('(', ')'), ('<', '>')], ∀ cl2 ∈ [']', ')', '>'], ¬ cl2 = p.2 →
      (ValidType ('A' :: p.1 :: (typeListBody ["int".data, "B".data] ++ [cl2])) 0).isOk =
        false) ∧
    (["int".data, "B".data] ≠ ([] : List (List Char)) →
      ∀ p ∈ [('[', ']'), ('(', ')'), ('<', '>')],
      (ValidType ('A' :: p.1 :: (typeListBody ["int".data, "B".data] ++ [',', p.2])) 0).isOk =
        false) ∧
    ValidType "A[B(int)]".data 0 = Except.ok 9 :=
  c8_bracket_type_lists ["int".data, "B".data] (by decide)
